import Mathlib

set_option maxHeartbeats 1000000
set_option maxRecDepth 8000

/-!
Verification development for the BoAT-X PlatON raw-transaction module
(boatplaton.h / boatethereum.h).  The repository fragment exposes only the
public surface; the component bodies (RLP encoder, transaction assembler,
signer glue, submission service, Bech32 codec) are modelled from the
specification and the header documentation.
-/

deriving instance DecidableEq for Except

/-! ## RLP encoder -/

/-- Modelled from the spec: fuel-indexed helper computing the minimal
big-endian byte string of a natural number (the RLP integer
normalisation of section 4.1). -/
def beBytesAux : Nat → Nat → List Nat
  | _, 0 => []
  | 0, _ + 1 => []
  | fuel + 1, n + 1 => beBytesAux fuel ((n + 1) / 256) ++ [(n + 1) % 256]

/-- Modelled from the spec: minimal big-endian byte string of a natural
number; 0 becomes the zero-length string. -/
def beBytes (n : Nat) : List Nat := beBytesAux n n

/-- Big-endian value of a byte string. -/
def beVal (bs : List Nat) : Nat := bs.foldl (fun a b => a * 256 + b) 0

/-- Modelled from the spec: RLP encoding of a byte-string item
(boatplaton.c body is absent from the fragment).  A single byte below
0x80 encodes verbatim; strings of length at most 55 get the 0x80+len
prefix; longer strings use the 0xB7+lenOfLen long form. -/
def rlpEncodeBytes (s : List Nat) : List Nat :=
  match s with
  | [b] => if b < 128 then [b] else [129, b]
  | _ =>
    if s.length ≤ 55 then (128 + s.length) :: s
    else (183 + (beBytes s.length).length) :: (beBytes s.length ++ s)

/-- Modelled from the spec: RLP encoding of an integer item: the value is
first converted to its minimal big-endian byte string (0 becomes the
empty string, hence the NULL marker 0x80). -/
def rlpEncodeInt (n : Nat) : List Nat := rlpEncodeBytes (beBytes n)

/-- Modelled from the spec: RLP decoding of a single byte-string item. -/
def rlpDecodeBytes (e : List Nat) : Option (List Nat) :=
  match e with
  | [] => none
  | b :: rest =>
    if b < 128 then (if rest = [] then some [b] else none)
    else if b ≤ 183 then (if rest.length = b - 128 then some rest else none)
    else
      if (rest.drop (b - 183)).length = beVal (rest.take (b - 183)) then
        some (rest.drop (b - 183))
      else none

/-- Modelled from the spec: RLP decoding of an integer item. -/
def rlpDecodeInt (e : List Nat) : Option Nat := (rlpDecodeBytes e).map beVal

/-- Modelled from the spec: RLP list encoding: the 0xC0/0xF7 prefix rules
around the concatenation of the already-encoded items. -/
def rlpEncodeList (items : List (List Nat)) : List Nat :=
  if items.flatten.length ≤ 55 then (192 + items.flatten.length) :: items.flatten
  else (247 + (beBytes items.flatten.length).length) :: (beBytes items.flatten.length ++ items.flatten)

/-! ## Transaction assembler -/

/-- Signature output: r, s and the recovery identifier (parity). -/
structure SignatureResult where
  r : List Nat
  s : List Nat
  recoveryId : Nat
deriving DecidableEq

/-- Error taxonomy of the transaction path (section 7 of the spec). -/
inductive TxError where
  | MissingField
  | ReceiptTimeout
  | TransactionRejected
  | TransportError
deriving DecidableEq

/-- Resolved transaction fields after defaulting of the optional ones. -/
structure TxFields where
  nonce : Nat
  gasPrice : Nat
  gasLimit : Nat
  recipient : List Nat
  value : Nat
  data : List Nat
  chainId : Option Nat
deriving DecidableEq

/-- Transaction context as held by the caller: mandatory fields may be
absent, value and data are optional, chainId presence selects the
EIP-155 branch, and v, r, s are populated by the send operation. -/
structure TxContext where
  nonce : Option Nat
  gasPrice : Option Nat
  gasLimit : Option Nat
  recipient : Option (List Nat)
  value : Option Nat
  data : Option (List Nat)
  chainId : Option Nat
  v : Option Nat
  r : Option (List Nat)
  s : Option (List Nat)
deriving DecidableEq

/-- Modelled from the spec: field resolution of the assembler: fails with
MissingField when a mandatory field (nonce, gasPrice, gasLimit,
recipient) is absent; value and data default to zero / zero-length. -/
def resolveFields (tx : TxContext) : Except TxError TxFields :=
  match tx.nonce, tx.gasPrice, tx.gasLimit, tx.recipient with
  | some n, some gp, some gl, some rc =>
    Except.ok ⟨n, gp, gl, rc, tx.value.getD 0, tx.data.getD [], tx.chainId⟩
  | _, _, _, _ => Except.error TxError.MissingField

/-- The encodings of the first six transaction fields, in raw-transaction
order.  The recipient is encoded from its fixed-length raw bytes (no
integer normalisation), all integer fields go through beBytes. -/
def first6Items (f : TxFields) : List (List Nat) :=
  [rlpEncodeInt f.nonce, rlpEncodeInt f.gasPrice, rlpEncodeInt f.gasLimit,
   rlpEncodeBytes f.recipient, rlpEncodeInt f.value, rlpEncodeBytes f.data]

/-- Modelled from the spec: Step-1 pre-signature item list.  Legacy
branch: the first six fields only.  EIP-155 branch: all nine fields with
v = chainId and r = s = empty string. -/
def preSignItems (f : TxFields) : List (List Nat) :=
  match f.chainId with
  | none => first6Items f
  | some cid => first6Items f ++ [rlpEncodeInt cid, rlpEncodeBytes [], rlpEncodeBytes []]

/-- Step-1 pre-signature encoded stream. -/
def preSignStream (f : TxFields) : List Nat := rlpEncodeList (preSignItems f)

/-- Modelled from the spec: the v field of the final signed encoding:
recoveryId + 27 on the legacy branch, chainId * 2 + recoveryId + 35 on
the EIP-155 branch. -/
def finalV (f : TxFields) (recoveryId : Nat) : Nat :=
  match f.chainId with
  | none => recoveryId + 27
  | some cid => cid * 2 + recoveryId + 35

/-- Modelled from the spec: Step-4 final item list: all nine fields, the
first six unchanged, v from finalV, r and s from the signature. -/
def finalItems (f : TxFields) (sig : SignatureResult) : List (List Nat) :=
  first6Items f ++ [rlpEncodeInt (finalV f sig.recoveryId), rlpEncodeBytes sig.r, rlpEncodeBytes sig.s]

/-- Final signed encoded stream. -/
def finalStream (f : TxFields) (sig : SignatureResult) : List Nat :=
  rlpEncodeList (finalItems f sig)

/-- Modelled from the spec: the assembler.  Resolves the fields, signs
the Step-1 stream through the Signer collaborator, overwrites v, r, s in
the context and returns the final signed stream. -/
def assemble (sign : List Nat → SignatureResult) (tx : TxContext) :
    Except TxError (TxContext × List Nat) :=
  match resolveFields tx with
  | Except.error e => Except.error e
  | Except.ok f =>
    Except.ok
      ({ tx with
          v := some (finalV f ((sign (preSignStream f)).recoveryId)),
          r := some ((sign (preSignStream f)).r),
          s := some ((sign (preSignStream f)).s) },
        finalStream f (sign (preSignStream f)))

/-! ## Submission service -/

/-- Outcome of one receipt-endpoint query. -/
inductive PollOutcome where
  | mined (receipt : Nat)
  | rejected
  | pending
deriving DecidableEq

/-- Modelled from the spec: the bounded receipt-polling loop of the
synchronous send: polls the endpoint until a receipt is returned, the
transaction is rejected, or the configured number of polls elapses
(ReceiptTimeout). -/
def pollForReceipt (endpoint : Nat → PollOutcome) : Nat → Nat → Except TxError Nat
  | 0, _ => Except.error TxError.ReceiptTimeout
  | fuel + 1, i =>
    match endpoint i with
    | PollOutcome.mined rc => Except.ok rc
    | PollOutcome.rejected => Except.error TxError.TransactionRejected
    | PollOutcome.pending => pollForReceipt endpoint fuel (i + 1)

/-- Modelled from the spec: PlatONSendRawtx (asynchronous send): assemble
and sign the transaction, transmit the final stream, return the updated
context and the transaction hash without waiting for mining. -/
def PlatONSendRawtx (sign : List Nat → SignatureResult)
    (submit : List Nat → Except TxError Nat) (tx : TxContext) :
    Except TxError (TxContext × Nat) :=
  match assemble sign tx with
  | Except.error e => Except.error e
  | Except.ok (tx2, stream) =>
    match submit stream with
    | Except.error e => Except.error e
    | Except.ok h => Except.ok (tx2, h)

/-- Modelled from the spec: PlatONSendRawtxWithReceipt (synchronous
send): performs the same transmission as the asynchronous send, then
polls for the mining receipt with the configured poll budget. -/
def PlatONSendRawtxWithReceipt (sign : List Nat → SignatureResult)
    (submit : List Nat → Except TxError Nat) (endpoint : Nat → PollOutcome)
    (maxPolls : Nat) (tx : TxContext) : Except TxError (TxContext × Nat) :=
  match PlatONSendRawtx sign submit tx with
  | Except.error e => Except.error e
  | Except.ok (tx2, _) =>
    match pollForReceipt endpoint maxPolls 0 with
    | Except.error e => Except.error e
    | Except.ok rc => Except.ok (tx2, rc)

/-! ## Bech32 codec -/

/-- Error taxonomy of the Bech32 codec. -/
inductive Bech32Err where
  | InvalidHrp
  | ChecksumMismatch
  | InvalidCharacter
  | TooLong
deriving DecidableEq

/-- The 32-character Bech32 data alphabet, as ASCII codes. -/
def CHARSET : List Nat :=
  [113, 112, 122, 114, 121, 57, 120, 56, 103, 102, 50, 116, 118, 100, 119, 48,
   115, 51, 106, 110, 53, 52, 107, 104, 99, 101, 54, 109, 117, 97, 55, 108]

/-- Character of a 5-bit group value. -/
def charsetChar (d : Nat) : Nat := CHARSET.getD d 0

/-- Scan helper for the alphabet lookup. -/
def charsetIdxAux : List Nat → Nat → Nat → Option Nat
  | [], _, _ => none
  | x :: xs, c, i => if x = c then some i else charsetIdxAux xs c (i + 1)

/-- 5-bit group value of a character, none when the character is outside
the alphabet. -/
def charsetIdx (c : Nat) : Option Nat := charsetIdxAux CHARSET c 0

/-- ASCII uppercase letter test. -/
def isUpperChar (c : Nat) : Bool := decide (65 ≤ c) && decide (c ≤ 90)

/-- ASCII lowercase letter test. -/
def isLowerChar (c : Nat) : Bool := decide (97 ≤ c) && decide (c ≤ 122)

/-- ASCII lowercasing. -/
def toLowerChar (c : Nat) : Nat := if isUpperChar c then c + 32 else c

/-- Modelled from the spec: the Bech32 generator-polynomial taps: xor of
the generator constants selected by the set bits of the state's top
5 bits. -/
def bech32Taps (t : Nat) : Nat :=
  (if t.testBit 0 then 996825010 else 0) ^^^
  (if t.testBit 1 then 642813549 else 0) ^^^
  (if t.testBit 2 then 513874426 else 0) ^^^
  (if t.testBit 3 then 1027748829 else 0) ^^^
  (if t.testBit 4 then 705979059 else 0)

/-- One step of the standard Bech32 checksum polymod. -/
def polymodStep (chk b : Nat) : Nat :=
  ((chk &&& 33554431) <<< 5) ^^^ b ^^^ bech32Taps (chk >>> 25)

/-- Modelled from the spec: the standard Bech32 generator-polynomial
checksum over a sequence of 5-bit groups. -/
def bech32Polymod (vs : List Nat) : Nat := vs.foldl polymodStep 1

/-- Human-readable-part expansion feeding the checksum: high 3 bits of
each character, a zero separator, then the low 5 bits of each
character. -/
def hrpExpand (h : List Nat) : List Nat :=
  h.map (fun c => c >>> 5) ++ 0 :: h.map (fun c => c &&& 31)

/-- The six 5-bit groups of a 30-bit checksum value, most significant
first. -/
def checksumGroups (pm : Nat) : List Nat :=
  [(pm >>> 25) &&& 31, (pm >>> 20) &&& 31, (pm >>> 15) &&& 31,
   (pm >>> 10) &&& 31, (pm >>> 5) &&& 31, pm &&& 31]

/-- Modelled from the spec: checksum creation: polymod over the expanded
hrp, the data and six zero groups, xored with 1, split into six 5-bit
groups. -/
def createChecksum (h vals : List Nat) : List Nat :=
  checksumGroups (bech32Polymod (hrpExpand h ++ vals ++ [0, 0, 0, 0, 0, 0]) ^^^ 1)

/-- The eight bits of a byte, most significant first. -/
def byteBits (b : Nat) : List Bool :=
  [b.testBit 7, b.testBit 6, b.testBit 5, b.testBit 4,
   b.testBit 3, b.testBit 2, b.testBit 1, b.testBit 0]

/-- The five bits of a 5-bit group, most significant first. -/
def groupBits (g : Nat) : List Bool :=
  [g.testBit 4, g.testBit 3, g.testBit 2, g.testBit 1, g.testBit 0]

/-- Value of a most-significant-first bit string. -/
def bitsVal : List Bool → Nat
  | [] => 0
  | b :: bs => (if b then 1 else 0) * 2 ^ bs.length + bitsVal bs

/-- Bitstream of a byte string. -/
def toBits8 (bytes : List Nat) : List Bool := (bytes.map byteBits).flatten

/-- Zero-padding of a bitstream up to a multiple of five bits. -/
def pad5 (bits : List Bool) : List Bool :=
  bits ++ List.replicate ((5 - bits.length % 5) % 5) false

/-- Regrouping of a bitstream into 5-bit groups. -/
def chunks5 : List Bool → List Nat
  | [] => []
  | b0 :: rest0 =>
    match rest0 with
    | b1 :: b2 :: b3 :: b4 :: rest => bitsVal [b0, b1, b2, b3, b4] :: chunks5 rest
    | _ => [bitsVal (b0 :: rest0)]

/-- Regrouping of a bitstream into bytes (whole bytes only). -/
def chunks8 : List Bool → List Nat
  | [] => []
  | b0 :: rest0 =>
    match rest0 with
    | b1 :: b2 :: b3 :: b4 :: b5 :: b6 :: b7 :: rest =>
      bitsVal [b0, b1, b2, b3, b4, b5, b6, b7] :: chunks8 rest
    | _ => []

/-- Modelled from the spec: regrouping of payload bytes from 8-bit groups
into 5-bit groups, padding the final group with zero bits. -/
def convert8to5 (bytes : List Nat) : List Nat := chunks5 (pad5 (toBits8 bytes))

/-- Modelled from the spec: regrouping of 5-bit groups back into bytes;
fails when the leftover bits are five or more or are not all zero. -/
def convert5to8 (groups : List Nat) : Option (List Nat) :=
  if ((groups.map groupBits).flatten.drop ((groups.map groupBits).flatten.length / 8 * 8)).all
      (fun b => !b) && decide ((groups.map groupBits).flatten.length % 8 < 5) then
    some (chunks8 ((groups.map groupBits).flatten.take ((groups.map groupBits).flatten.length / 8 * 8)))
  else none

/-- One polymod step with a zero input group: the linear part of the
step map, used to track how a single-group difference evolves. -/
def stepZ (c : Nat) : Nat := polymodStep c 0

/-- Index of the last separator character 1 (ASCII 49). -/
def lastSepIdx : List Nat → Option Nat
  | [] => none
  | c :: rest =>
    match lastSepIdx rest with
    | some k => some (k + 1)
    | none => if c = 49 then some 0 else none

/-- Alphabet lookup of every character of the data part. -/
def allCharsetIdx : List Nat → Option (List Nat)
  | [] => some []
  | c :: cs =>
    match charsetIdx c, allCharsetIdx cs with
    | some v, some vs => some (v :: vs)
    | _, _ => none

/-- Modelled from the spec: the pre-checksum stage of Bech32 decoding:
character-range and case-uniformity checks, lowercasing, separator
split, hrp length check, data length check and alphabet lookup. -/
def bech32Parse (str : List Nat) : Except Bech32Err (List Nat × List Nat) :=
  if str.any (fun c => decide (c < 33) || decide (126 < c)) then
    Except.error Bech32Err.InvalidCharacter
  else if str.any isUpperChar && str.any isLowerChar then
    Except.error Bech32Err.InvalidCharacter
  else
    match lastSepIdx (str.map toLowerChar) with
    | none => Except.error Bech32Err.InvalidHrp
    | some pos =>
      if pos < 1 ∨ 83 < pos then Except.error Bech32Err.InvalidHrp
      else if str.length < pos + 7 then Except.error Bech32Err.InvalidCharacter
      else
        match allCharsetIdx ((str.map toLowerChar).drop (pos + 1)) with
        | none => Except.error Bech32Err.InvalidCharacter
        | some vals => Except.ok ((str.map toLowerChar).take pos, vals)

/-- Modelled from the spec: Bech32 decoding: parse, verify the checksum
(ChecksumMismatch on failure), strip the six checksum groups and regroup
the data back into payload bytes. -/
def bech32Decode (str : List Nat) : Except Bech32Err (List Nat) :=
  match bech32Parse str with
  | Except.error e => Except.error e
  | Except.ok (h, vals) =>
    if bech32Polymod (hrpExpand h ++ vals) = 1 then
      match convert5to8 (vals.take (vals.length - 6)) with
      | some payload => Except.ok payload
      | none => Except.error Bech32Err.InvalidCharacter
    else Except.error Bech32Err.ChecksumMismatch

/-- Modelled from the spec: Bech32 encoding: the hrp length must be
between 1 and 83 (InvalidHrp otherwise), the total output length is
capped at 90 (TooLong), and the output is hrp, the separator 1, the
regrouped data and the checksum in the data alphabet. -/
def bech32Encode (hrp payload : List Nat) : Except Bech32Err (List Nat) :=
  if hrp.length < 1 ∨ 83 < hrp.length then Except.error Bech32Err.InvalidHrp
  else if 90 < hrp.length + 1 + (convert8to5 payload).length + 6 then
    Except.error Bech32Err.TooLong
  else
    Except.ok (hrp ++ 49 ::
      (convert8to5 payload ++ createChecksum hrp (convert8to5 payload)).map charsetChar)

/-- Modelled from the spec and the header documentation: the C entry
point BoatPlatONBech32Encode writes the encoded string to the out buffer
and returns the length of out. -/
def BoatPlatONBech32Encode (inp : List Nat) (hrp : List Nat) :
    Except Bech32Err (Nat × List Nat) :=
  match bech32Encode hrp inp with
  | Except.error e => Except.error e
  | Except.ok out => Except.ok (out.length, out)

/-- Modelled from the spec and the header documentation: the C entry
point BoatPlatONBech32Decode writes the decoded payload to the out
buffer and returns its length. -/
def BoatPlatONBech32Decode (str : List Nat) : Except Bech32Err (Nat × List Nat) :=
  match bech32Decode str with
  | Except.error e => Except.error e
  | Except.ok payload => Except.ok (payload.length, payload)

/-! ## Lemmas: minimal big-endian bytes -/

theorem beBytesAux_congr : ∀ n f1 f2, n ≤ f1 → n ≤ f2 → beBytesAux f1 n = beBytesAux f2 n := by
  intro n
  induction n using Nat.strongRecOn with
  | ind n ih =>
    intro f1 f2 h1 h2
    cases n with
    | zero => cases f1 <;> cases f2 <;> rfl
    | succ m =>
      cases f1 with
      | zero => omega
      | succ a =>
        cases f2 with
        | zero => omega
        | succ b =>
          simp only [beBytesAux]
          rw [ih ((m + 1) / 256) (by omega) a b (by omega) (by omega)]

theorem beBytes_def (n : Nat) :
    beBytes n = if n = 0 then [] else beBytes (n / 256) ++ [n % 256] := by
  cases n with
  | zero => rfl
  | succ m =>
    rw [if_neg (Nat.succ_ne_zero m)]
    show beBytesAux (m + 1) (m + 1) = _
    simp only [beBytesAux]
    rw [beBytesAux_congr ((m + 1) / 256) m ((m + 1) / 256) (by omega) (by omega)]
    rfl

theorem beVal_append (xs : List Nat) (b : Nat) : beVal (xs ++ [b]) = beVal xs * 256 + b := by
  simp [beVal, List.foldl_append]

theorem beVal_beBytes (n : Nat) : beVal (beBytes n) = n := by
  induction n using Nat.strongRecOn with
  | ind n ih =>
    rw [beBytes_def]
    by_cases h : n = 0
    · simp [h, beVal]
    · rw [if_neg h, beVal_append, ih (n / 256) (by omega)]
      omega

theorem beBytes_eq_nil (n : Nat) : beBytes n = [] ↔ n = 0 := by
  rw [beBytes_def]
  by_cases h : n = 0
  · simp [h]
  · simp [h]

theorem beBytes_head_ne_zero (n : Nat) (h : n ≠ 0) : (beBytes n).head? ≠ some 0 := by
  induction n using Nat.strongRecOn with
  | ind n ih =>
    rw [beBytes_def, if_neg h]
    by_cases h2 : n / 256 = 0
    · rw [h2]
      show (([] : List Nat) ++ [n % 256]).head? ≠ some 0
      simp
      omega
    · have hne : beBytes (n / 256) ≠ [] := by
        intro hc
        exact h2 ((beBytes_eq_nil (n / 256)).mp hc)
      cases hx : beBytes (n / 256) with
      | nil => exact absurd hx hne
      | cons x xs =>
        have := ih (n / 256) (by omega) h2
        rw [hx] at this
        simp at this
        simp [this]

/-! ## Lemmas: RLP round trip -/

theorem rlpDecode_rlpEncodeBytes (s : List Nat) : rlpDecodeBytes (rlpEncodeBytes s) = some s := by
  match s with
  | [b] =>
    by_cases hb : b < 128
    · simp [rlpEncodeBytes, rlpDecodeBytes, hb]
    · simp [rlpEncodeBytes, rlpDecodeBytes, hb]
  | [] =>
    simp [rlpEncodeBytes, rlpDecodeBytes]
  | a :: b :: t =>
    by_cases h55 : (a :: b :: t).length ≤ 55
    · have h1 : ¬ (128 + (a :: b :: t).length < 128) := by omega
      have h2 : 128 + (a :: b :: t).length ≤ 183 := by
        simp at h55
        simp
        omega
      simp only [rlpEncodeBytes, if_pos h55, rlpDecodeBytes]
      rw [if_neg h1, if_pos h2]
      simp
    · have hlen : 55 < (a :: b :: t).length := by omega
      have hnz : (a :: b :: t).length ≠ 0 := by simp
      have hne : beBytes (a :: b :: t).length ≠ [] := by
        intro hc
        exact hnz ((beBytes_eq_nil _).mp hc)
      have hL : 1 ≤ (beBytes (a :: b :: t).length).length := by
        cases hx : beBytes (a :: b :: t).length with
        | nil => exact absurd hx hne
        | cons x xs => simp
      have h1 : ¬ (183 + (beBytes (a :: b :: t).length).length < 128) := by omega
      have h2 : ¬ (183 + (beBytes (a :: b :: t).length).length ≤ 183) := by omega
      simp only [rlpEncodeBytes, if_neg h55, rlpDecodeBytes]
      rw [if_neg h1, if_neg h2]
      have he : 183 + (beBytes (a :: b :: t).length).length - 183
          = (beBytes (a :: b :: t).length).length := by omega
      rw [he, List.take_left, List.drop_left, beVal_beBytes]
      simp

theorem rlpDecode_rlpEncodeInt (n : Nat) : rlpDecodeInt (rlpEncodeInt n) = some n := by
  simp [rlpDecodeInt, rlpEncodeInt, rlpDecode_rlpEncodeBytes, beVal_beBytes]

theorem rlpEncodeInt_zero : rlpEncodeInt 0 = [128] := by rfl

/-! ## Claim theorems: RLP -/

/-- C6: RLP round-trips on its basic item types: decoding the encoding of
any non-negative integer returns the integer, 0 encodes as exactly the
single byte 0x80; for byte-strings of length 1..55 decoding the encoding
returns the string, the prefix byte is 0x80+len, and a length-1 string
with byte below 0x80 encodes verbatim. -/
theorem claim6_rlp_round_trip (n : Nat) (s : List Nat) (h1 : 1 ≤ s.length) (h55 : s.length ≤ 55) :
    rlpDecodeInt (rlpEncodeInt n) = some n ∧
    rlpEncodeInt 0 = [128] ∧
    rlpDecodeBytes (rlpEncodeBytes s) = some s ∧
    (s.length = 1 ∧ s.getD 0 0 < 128 → rlpEncodeBytes s = s) ∧
    (¬(s.length = 1 ∧ s.getD 0 0 < 128) → (rlpEncodeBytes s).head? = some (128 + s.length)) := by
  refine ⟨rlpDecode_rlpEncodeInt n, rlpEncodeInt_zero, rlpDecode_rlpEncodeBytes s, ?_, ?_⟩
  · rintro ⟨hl, hb⟩
    match s, hl with
    | [b], _ =>
      simp at hb
      simp [rlpEncodeBytes, hb]
  · intro hn
    match s with
    | [b] =>
      have hb : ¬ b < 128 := by
        intro hc
        exact hn ⟨rfl, by simpa using hc⟩
      simp [rlpEncodeBytes, hb]
    | a :: b :: t =>
      simp only [rlpEncodeBytes, if_pos h55]
      simp

/-- C6 witness: concrete round trips through the RLP encoder. -/
theorem claim6_rlp_round_trip_witness :
    rlpDecodeInt (rlpEncodeInt 1000) = some 1000 ∧
    rlpDecodeBytes (rlpEncodeBytes [0, 200]) = some [0, 200] ∧
    (rlpEncodeBytes [0, 200]).head? = some 130 :=
  ⟨(claim6_rlp_round_trip 1000 [0, 200] (by decide) (by decide)).1,
   (claim6_rlp_round_trip 1000 [0, 200] (by decide) (by decide)).2.2.1,
   (claim6_rlp_round_trip 1000 [0, 200] (by decide) (by decide)).2.2.2.2 (by decide)⟩

/-! ## Claim theorems: transaction assembler -/

/-- C1: on the EIP-155 branch (chainId present) the Step-1 pre-signature
encoding lists all nine fields with v = chainId and r and s as empty
strings serializing as the NULL byte 0x80, and the final encoding has
v = chainId * 2 + recoveryId + 35. -/
theorem claim1_eip155_branch (f : TxFields) (cid : Nat) (sig : SignatureResult)
    (h : f.chainId = some cid) :
    preSignItems f =
      [rlpEncodeInt f.nonce, rlpEncodeInt f.gasPrice, rlpEncodeInt f.gasLimit,
       rlpEncodeBytes f.recipient, rlpEncodeInt f.value, rlpEncodeBytes f.data,
       rlpEncodeInt cid, [128], [128]] ∧
    rlpEncodeBytes [] = [128] ∧
    (preSignItems f).length = 9 ∧
    finalItems f sig =
      [rlpEncodeInt f.nonce, rlpEncodeInt f.gasPrice, rlpEncodeInt f.gasLimit,
       rlpEncodeBytes f.recipient, rlpEncodeInt f.value, rlpEncodeBytes f.data,
       rlpEncodeInt (cid * 2 + sig.recoveryId + 35), rlpEncodeBytes sig.r, rlpEncodeBytes sig.s] ∧
    finalV f sig.recoveryId = cid * 2 + sig.recoveryId + 35 := by
  have henc : rlpEncodeBytes [] = [128] := by rfl
  refine ⟨?_, henc, ?_, ?_, ?_⟩ <;>
    simp [preSignItems, first6Items, finalItems, finalV, h, henc]

/-- C1 witness: with chainId = 1 and recovery parity 0 the final v is
1 * 2 + 0 + 35 and the pre-signature list has nine items. -/
theorem claim1_eip155_branch_witness :
    finalV ⟨9, 20000000000, 21000, List.replicate 20 53, 1000000000000000000, [], some 1⟩
        (SignatureResult.mk [] [] 0).recoveryId = 1 * 2 + (SignatureResult.mk [] [] 0).recoveryId + 35 ∧
    (preSignItems ⟨9, 20000000000, 21000, List.replicate 20 53, 1000000000000000000, [], some 1⟩).length = 9 := by
  have h := claim1_eip155_branch
    ⟨9, 20000000000, 21000, List.replicate 20 53, 1000000000000000000, [], some 1⟩
    1 (SignatureResult.mk [] [] 0) rfl
  exact ⟨h.2.2.2.2, h.2.2.1⟩

/-- C2: on the legacy branch (no chainId) the Step-1 pre-signature
encoding lists only the first six fields, and the final encoding lists
all nine fields with the first six unchanged and v = recoveryId + 27
(parity 0 or 1 gives v = 27 or 28). -/
theorem claim2_legacy_branch (f : TxFields) (sig : SignatureResult) (h : f.chainId = none) :
    preSignItems f = first6Items f ∧
    (preSignItems f).length = 6 ∧
    preSignItems f =
      [rlpEncodeInt f.nonce, rlpEncodeInt f.gasPrice, rlpEncodeInt f.gasLimit,
       rlpEncodeBytes f.recipient, rlpEncodeInt f.value, rlpEncodeBytes f.data] ∧
    finalItems f sig = preSignItems f ++
      [rlpEncodeInt (sig.recoveryId + 27), rlpEncodeBytes sig.r, rlpEncodeBytes sig.s] ∧
    (finalItems f sig).length = 9 ∧
    finalV f sig.recoveryId = sig.recoveryId + 27 ∧
    (sig.recoveryId = 0 → finalV f sig.recoveryId = 27) ∧
    (sig.recoveryId = 1 → finalV f sig.recoveryId = 28) := by
  have hv : finalV f sig.recoveryId = sig.recoveryId + 27 := by simp [finalV, h]
  refine ⟨by simp [preSignItems, h], by simp [preSignItems, h, first6Items],
    by simp [preSignItems, h, first6Items], by simp [preSignItems, finalItems, h, hv],
    by simp [finalItems, first6Items, hv], hv, ?_, ?_⟩
  · intro h0
    rw [hv, h0]
  · intro h1
    rw [hv, h1]

/-- C2 witness: the canonical test-vector fields on the legacy branch
with parity 0 give v = 27, and the pre-signature list has six items. -/
theorem claim2_legacy_branch_witness :
    (preSignItems ⟨9, 20000000000, 21000, List.replicate 20 53, 1000000000000000000, [], none⟩).length = 6 ∧
    finalV ⟨9, 20000000000, 21000, List.replicate 20 53, 1000000000000000000, [], none⟩
        (SignatureResult.mk [] [] 0).recoveryId = 27 := by
  have h := claim2_legacy_branch
    ⟨9, 20000000000, 21000, List.replicate 20 53, 1000000000000000000, [], none⟩
    (SignatureResult.mk [] [] 0) rfl
  exact ⟨h.2.1, h.2.2.2.2.2.2.1 rfl⟩

/-- C3: every integer transaction field is RLP-encoded through its
minimal big-endian byte string (value-preserving, no leading zero byte,
0 becoming the empty string and therefore the NULL byte 0x80), while the
recipient item keeps its fixed-length raw bytes even when all-zero. -/
theorem claim3_integer_fields (n : Nat) (f : TxFields) :
    rlpEncodeInt n = rlpEncodeBytes (beBytes n) ∧
    beVal (beBytes n) = n ∧
    (n ≠ 0 → (beBytes n).head? ≠ some 0) ∧
    beBytes 0 = [] ∧
    rlpEncodeInt 0 = [128] ∧
    (preSignItems f).getD 3 [] = rlpEncodeBytes f.recipient ∧
    (f.recipient = List.replicate 20 0 →
      (preSignItems f).getD 3 [] = 148 :: List.replicate 20 0) := by
  refine ⟨rfl, beVal_beBytes n, beBytes_head_ne_zero n, rfl, rlpEncodeInt_zero, ?_, ?_⟩
  · cases hc : f.chainId <;> simp [preSignItems, hc, first6Items]
  · intro hr
    cases hc : f.chainId <;> simp [preSignItems, hc, first6Items, hr] <;> rfl

/-- C3 witness: 300 round-trips through the minimal big-endian
conversion with a non-zero leading byte, and an all-zero recipient keeps
its twenty raw bytes in the pre-signature item list. -/
theorem claim3_integer_fields_witness :
    beVal (beBytes 300) = 300 ∧
    (beBytes 300).head? ≠ some 0 ∧
    (preSignItems ⟨0, 0, 0, List.replicate 20 0, 0, [], none⟩).getD 3 []
      = 148 :: List.replicate 20 0 :=
  ⟨(claim3_integer_fields 300 ⟨0, 0, 0, List.replicate 20 0, 0, [], none⟩).2.1,
   (claim3_integer_fields 300 ⟨0, 0, 0, List.replicate 20 0, 0, [], none⟩).2.2.1 (by decide),
   (claim3_integer_fields 300 ⟨0, 0, 0, List.replicate 20 0, 0, [], none⟩).2.2.2.2.2.2 rfl⟩

/-- C7: the assembler fails with MissingField exactly when one of the
mandatory fields nonce, gasPrice, gasLimit, recipient is absent;
MissingField is its only failure; absent value and data fields default
to zero-length and do not cause failure. -/
theorem claim7_missing_field (sign : List Nat → SignatureResult) (tx : TxContext) :
    (assemble sign tx = Except.error TxError.MissingField ↔
      (tx.nonce = none ∨ tx.gasPrice = none ∨ tx.gasLimit = none ∨ tx.recipient = none)) ∧
    (∀ e, assemble sign tx = Except.error e → e = TxError.MissingField) ∧
    resolveFields { tx with value := none } = resolveFields { tx with value := some 0 } ∧
    resolveFields { tx with data := none } = resolveFields { tx with data := some [] } := by
  obtain ⟨n, gp, gl, rc, v, d, c, vv, rr, ss⟩ := tx
  refine ⟨?_, ?_, ?_, ?_⟩ <;>
    cases n <;> cases gp <;> cases gl <;> cases rc <;>
      simp [assemble, resolveFields]

/-- C7 witness: an empty context fails with MissingField. -/
theorem claim7_missing_field_witness :
    assemble (fun _ => SignatureResult.mk [] [] 0)
        ⟨none, none, none, none, none, none, none, none, none, none⟩
      = Except.error TxError.MissingField :=
  (claim7_missing_field (fun _ => SignatureResult.mk [] [] 0)
    ⟨none, none, none, none, none, none, none, none, none, none⟩).1.mpr (Or.inl rfl)

/-- C8: the assembler never reads pre-existing v, r, s values (the
result is unchanged under arbitrary stale contents) and on success it
overwrites them with the freshly computed signature, the produced
encoding depending only on the resolved fields and that signature. -/
theorem claim8_stale_vrs (sign : List Nat → SignatureResult) (tx : TxContext)
    (v0 : Option Nat) (r0 s0 : Option (List Nat)) :
    assemble sign { tx with v := v0, r := r0, s := s0 } = assemble sign tx ∧
    (∀ f, resolveFields tx = Except.ok f →
      assemble sign tx = Except.ok
        ({ tx with
            v := some (finalV f ((sign (preSignStream f)).recoveryId)),
            r := some ((sign (preSignStream f)).r),
            s := some ((sign (preSignStream f)).s) },
          finalStream f (sign (preSignStream f)))) := by
  obtain ⟨n, gp, gl, rc, v, d, c, vv, rr, ss⟩ := tx
  constructor
  · cases n <;> cases gp <;> cases gl <;> cases rc <;> simp [assemble, resolveFields]
  · intro f hf
    simp [assemble, hf]

/-- C8 witness: a context carrying stale v, r, s assembles to the same
result as the clean context, and the clean context assembles to the
freshly signed form. -/
theorem claim8_stale_vrs_witness :
    assemble (fun _ => SignatureResult.mk [6] [7] 1)
        ⟨some 1, some 2, some 3, some [4], none, none, none, some 99, some [1], some [2]⟩
      = assemble (fun _ => SignatureResult.mk [6] [7] 1)
        ⟨some 1, some 2, some 3, some [4], none, none, none, none, none, none⟩ ∧
    assemble (fun _ => SignatureResult.mk [6] [7] 1)
        ⟨some 1, some 2, some 3, some [4], none, none, none, none, none, none⟩
      = Except.ok
        (⟨some 1, some 2, some 3, some [4], none, none, none, some 28, some [6], some [7]⟩,
          finalStream ⟨1, 2, 3, [4], 0, [], none⟩ (SignatureResult.mk [6] [7] 1)) := by
  have h := claim8_stale_vrs (fun _ => SignatureResult.mk [6] [7] 1)
    ⟨some 1, some 2, some 3, some [4], none, none, none, none, none, none⟩
    (some 99) (some [1]) (some [2])
  exact ⟨h.1, h.2 ⟨1, 2, 3, [4], 0, [], none⟩ rfl⟩

/-! ## Lemmas: receipt polling -/

theorem pollForReceipt_pending (endpoint : Nat → PollOutcome)
    (h : ∀ i, endpoint i = PollOutcome.pending) :
    ∀ fuel start, pollForReceipt endpoint fuel start = Except.error TxError.ReceiptTimeout := by
  intro fuel
  induction fuel with
  | zero => intro start; rfl
  | succ k ih =>
    intro start
    simp only [pollForReceipt, h start]
    exact ih (start + 1)

theorem pollForReceipt_finds (endpoint : Nat → PollOutcome) :
    ∀ fuel start k rc, k < fuel →
    (∀ i, i < k → endpoint (start + i) = PollOutcome.pending) →
    endpoint (start + k) = PollOutcome.mined rc →
    pollForReceipt endpoint fuel start = Except.ok rc := by
  intro fuel
  induction fuel with
  | zero => intro start k rc hk; omega
  | succ m ih =>
    intro start k rc hk hpend hm
    cases k with
    | zero =>
      have hm0 : endpoint start = PollOutcome.mined rc := by simpa using hm
      simp [pollForReceipt, hm0]
    | succ j =>
      have h0 : endpoint start = PollOutcome.pending := by
        have := hpend 0 (by omega)
        simpa using this
      simp only [pollForReceipt, h0]
      apply ih (start + 1) j rc (by omega)
      · intro i hi
        rw [show start + 1 + i = start + (i + 1) by omega]
        exact hpend (i + 1) (by omega)
      · rw [show start + 1 + j = start + (j + 1) by omega]
        exact hm

/-- C9: the synchronous send performs the same transmission as the
asynchronous one and then polls: with an endpoint that never answers it
fails with ReceiptTimeout exactly when the poll budget is exhausted, a
receipt arriving within the budget is returned (no premature timeout),
and a transmission failure is surfaced unchanged. -/
theorem claim9_receipt_timeout (sign : List Nat → SignatureResult)
    (submit : List Nat → Except TxError Nat) (endpoint : Nat → PollOutcome)
    (maxPolls : Nat) (tx : TxContext) :
    ((∀ i, endpoint i = PollOutcome.pending) →
      ∀ p, PlatONSendRawtx sign submit tx = Except.ok p →
        PlatONSendRawtxWithReceipt sign submit endpoint maxPolls tx
          = Except.error TxError.ReceiptTimeout) ∧
    (∀ k rc, k < maxPolls → (∀ i, i < k → endpoint i = PollOutcome.pending) →
      endpoint k = PollOutcome.mined rc →
      ∀ p, PlatONSendRawtx sign submit tx = Except.ok p →
        PlatONSendRawtxWithReceipt sign submit endpoint maxPolls tx = Except.ok (p.1, rc)) ∧
    (∀ e, PlatONSendRawtx sign submit tx = Except.error e →
      PlatONSendRawtxWithReceipt sign submit endpoint maxPolls tx = Except.error e) := by
  refine ⟨?_, ?_, ?_⟩
  · intro hp p hok
    obtain ⟨tx2, hh⟩ := p
    simp [PlatONSendRawtxWithReceipt, hok, pollForReceipt_pending endpoint hp maxPolls 0]
  · intro k rc hk hpend hm p hok
    obtain ⟨tx2, hh⟩ := p
    have hfind := pollForReceipt_finds endpoint maxPolls 0 k rc hk
      (by intro i hi; simpa using hpend i hi) (by simpa using hm)
    simp [PlatONSendRawtxWithReceipt, hok, hfind]
  · intro e he
    simp [PlatONSendRawtxWithReceipt, he]

/-- C9 witness: a never-answering endpoint with a poll budget of three
makes the synchronous send fail with ReceiptTimeout. -/
theorem claim9_receipt_timeout_witness :
    PlatONSendRawtxWithReceipt (fun _ => SignatureResult.mk [] [] 0) (fun _ => Except.ok 5)
        (fun _ => PollOutcome.pending) 3
        ⟨some 1, some 2, some 3, some [4], none, none, none, none, none, none⟩
      = Except.error TxError.ReceiptTimeout :=
  (claim9_receipt_timeout (fun _ => SignatureResult.mk [] [] 0) (fun _ => Except.ok 5)
      (fun _ => PollOutcome.pending) 3
      ⟨some 1, some 2, some 3, some [4], none, none, none, none, none, none⟩).1
    (fun _ => rfl) _ rfl

/-! ## Lemmas: bit regrouping lengths -/

theorem toBits8_length (bytes : List Nat) : (toBits8 bytes).length = 8 * bytes.length := by
  induction bytes with
  | nil => rfl
  | cons b bs ih =>
    show (byteBits b ++ toBits8 bs).length = _
    simp only [List.length_append, ih, byteBits, List.length_cons, List.length_nil]
    omega

theorem pad5_length (bits : List Bool) :
    (pad5 bits).length = bits.length + (5 - bits.length % 5) % 5 := by
  simp [pad5]

theorem chunks5_length : ∀ bits : List Bool, (chunks5 bits).length = (bits.length + 4) / 5
  | [] => rfl
  | [_] => by simp [chunks5]
  | [_, _] => by simp [chunks5]
  | [_, _, _] => by simp [chunks5]
  | [_, _, _, _] => by simp [chunks5]
  | b0 :: b1 :: b2 :: b3 :: b4 :: rest => by
    show (bitsVal [b0, b1, b2, b3, b4] :: chunks5 rest).length = _
    rw [List.length_cons, chunks5_length rest]
    simp only [List.length_cons]
    omega

theorem convert8to5_length (bytes : List Nat) :
    (convert8to5 bytes).length = (8 * bytes.length + 4) / 5 := by
  show (chunks5 (pad5 (toBits8 bytes))).length = _
  rw [chunks5_length, pad5_length, toBits8_length]
  omega

theorem createChecksum_length (h vals : List Nat) : (createChecksum h vals).length = 6 := by
  rfl

/-- C10: on success BoatPlatONBech32Encode returns the length in bytes
of the encoded Bech32 string written to the out buffer, which equals
hrplen + 1 + ceil(8 * inlen / 5) + 6. -/
theorem claim10_encode_return_length (inp hrp : List Nat) (ret : Nat) (out : List Nat)
    (h : BoatPlatONBech32Encode inp hrp = Except.ok (ret, out)) :
    ret = out.length ∧ ret = hrp.length + 7 + (8 * inp.length + 4) / 5 := by
  unfold BoatPlatONBech32Encode bech32Encode at h
  by_cases h1 : hrp.length < 1 ∨ 83 < hrp.length
  · rw [if_pos h1] at h
    exact absurd h (by simp)
  · rw [if_neg h1] at h
    by_cases h2 : 90 < hrp.length + 1 + (convert8to5 inp).length + 6
    · rw [if_pos h2] at h
      exact absurd h (by simp)
    · rw [if_neg h2] at h
      simp only [Except.ok.injEq, Prod.mk.injEq] at h
      obtain ⟨hret, hout⟩ := h
      refine ⟨by rw [← hret, ← hout], ?_⟩
      rw [← hret]
      simp only [List.length_append, List.length_cons, List.length_map,
        createChecksum_length, convert8to5_length]
      omega

/-- C10 witness: encoding three bytes with hrp a returns 13, the length
of the thirteen-character output string. -/
theorem claim10_encode_return_length_witness :
    (13 : Nat) = ([97, 49, 113, 113, 113, 115, 121, 48, 106, 116, 119, 55, 122] : List Nat).length ∧
    (13 : Nat) = ([97] : List Nat).length + 7 + (8 * ([0, 1, 2] : List Nat).length + 4) / 5 :=
  claim10_encode_return_length [0, 1, 2] [97] 13
    [97, 49, 113, 113, 113, 115, 121, 48, 106, 116, 119, 55, 122] rfl

/-! ## Lemmas: bit regrouping inverse -/

theorem bitsVal_lt (bs : List Bool) : bitsVal bs < 2 ^ bs.length := by
  induction bs with
  | nil => simp [bitsVal]
  | cons b rest ih =>
    simp only [bitsVal, List.length_cons, pow_succ]
    by_cases hb : b <;> simp [hb] <;> omega

theorem groupBits_bitsVal (b0 b1 b2 b3 b4 : Bool) :
    groupBits (bitsVal [b0, b1, b2, b3, b4]) = [b0, b1, b2, b3, b4] := by
  cases b0 <;> cases b1 <;> cases b2 <;> cases b3 <;> cases b4 <;> decide

theorem bitsVal_byteBits : ∀ b < 256, bitsVal (byteBits b) = b := by decide

theorem byteBits_bitsVal (b0 b1 b2 b3 b4 b5 b6 b7 : Bool) :
    byteBits (bitsVal [b0, b1, b2, b3, b4, b5, b6, b7]) = [b0, b1, b2, b3, b4, b5, b6, b7] := by
  cases b0 <;> cases b1 <;> cases b2 <;> cases b3 <;> cases b4 <;> cases b5 <;> cases b6 <;>
    cases b7 <;> decide

theorem chunks5_lt : ∀ bits : List Bool, ∀ g ∈ chunks5 bits, g < 32
  | [] => by simp [chunks5]
  | [b] => by
    simp [chunks5]
    have := bitsVal_lt [b]
    simp at this
    omega
  | [b, c] => by
    simp [chunks5]
    have := bitsVal_lt [b, c]
    simp at this
    omega
  | [b, c, d] => by
    simp [chunks5]
    have := bitsVal_lt [b, c, d]
    simp at this
    omega
  | [b, c, d, e] => by
    simp [chunks5]
    have := bitsVal_lt [b, c, d, e]
    simp at this
    omega
  | b0 :: b1 :: b2 :: b3 :: b4 :: rest => by
    intro g hg
    have hred : chunks5 (b0 :: b1 :: b2 :: b3 :: b4 :: rest)
        = bitsVal [b0, b1, b2, b3, b4] :: chunks5 rest := rfl
    rw [hred] at hg
    rcases List.mem_cons.mp hg with h | h
    · have := bitsVal_lt [b0, b1, b2, b3, b4]
      simp at this
      omega
    · exact chunks5_lt rest g h

theorem chunks5_flatten : ∀ bits : List Bool, bits.length % 5 = 0 →
    ((chunks5 bits).map groupBits).flatten = bits
  | [], _ => rfl
  | [_], h => by simp at h
  | [_, _], h => by simp at h
  | [_, _, _], h => by simp at h
  | [_, _, _, _], h => by simp at h
  | b0 :: b1 :: b2 :: b3 :: b4 :: rest, h => by
    have hred : chunks5 (b0 :: b1 :: b2 :: b3 :: b4 :: rest)
        = bitsVal [b0, b1, b2, b3, b4] :: chunks5 rest := rfl
    rw [hred]
    show groupBits (bitsVal [b0, b1, b2, b3, b4]) ++ ((chunks5 rest).map groupBits).flatten = _
    rw [groupBits_bitsVal, chunks5_flatten rest (by simp at h; omega)]
    rfl

theorem chunks8_toBits8 (bytes : List Nat) (h : ∀ b ∈ bytes, b < 256) :
    chunks8 (toBits8 bytes) = bytes := by
  induction bytes with
  | nil => rfl
  | cons b bs ih =>
    have hb : b < 256 := h b (by simp)
    have hbits : bitsVal (byteBits b) = b := bitsVal_byteBits b hb
    show chunks8 (byteBits b ++ toBits8 bs) = b :: bs
    rw [show byteBits b = [b.testBit 7, b.testBit 6, b.testBit 5, b.testBit 4,
      b.testBit 3, b.testBit 2, b.testBit 1, b.testBit 0] from rfl]
    show bitsVal [b.testBit 7, b.testBit 6, b.testBit 5, b.testBit 4,
      b.testBit 3, b.testBit 2, b.testBit 1, b.testBit 0] :: chunks8 (toBits8 bs) = b :: bs
    rw [ih (fun x hx => h x (by simp [hx]))]
    rw [show [b.testBit 7, b.testBit 6, b.testBit 5, b.testBit 4,
      b.testBit 3, b.testBit 2, b.testBit 1, b.testBit 0] = byteBits b from rfl, hbits]

theorem convert5to8_convert8to5 (bytes : List Nat) (h : ∀ b ∈ bytes, b < 256) :
    convert5to8 (convert8to5 bytes) = some bytes := by
  have hflat : ((convert8to5 bytes).map groupBits).flatten = pad5 (toBits8 bytes) :=
    chunks5_flatten _ (by rw [pad5_length, toBits8_length]; omega)
  have hlen : (pad5 (toBits8 bytes)).length
      = 8 * bytes.length + (5 - 8 * bytes.length % 5) % 5 := by
    rw [pad5_length, toBits8_length]
  have hdiv : (8 * bytes.length + (5 - 8 * bytes.length % 5) % 5) / 8 * 8
      = 8 * bytes.length := by omega
  have hmod : (8 * bytes.length + (5 - 8 * bytes.length % 5) % 5) % 8 < 5 := by omega
  have hrep : List.replicate ((5 - (toBits8 bytes).length % 5) % 5) (false : Bool)
      = List.replicate ((5 - 8 * bytes.length % 5) % 5) false := by
    rw [toBits8_length]
  have htake : (pad5 (toBits8 bytes)).take (8 * bytes.length) = toBits8 bytes :=
    List.take_left' (toBits8_length bytes)
  have hdrop : (pad5 (toBits8 bytes)).drop (8 * bytes.length)
      = List.replicate ((5 - 8 * bytes.length % 5) % 5) false := by
    rw [← hrep]
    exact List.drop_left' (toBits8_length bytes)
  unfold convert5to8
  rw [hflat, hlen, hdiv, htake, hdrop]
  have hall : ((List.replicate ((5 - 8 * bytes.length % 5) % 5) (false : Bool)).all
      fun b => !b) = true := by
    simp [List.all_eq_true]
  rw [hall]
  simp only [Bool.true_and]
  rw [if_pos (decide_eq_true hmod)]
  rw [chunks8_toBits8 bytes h]

/-! ## Lemmas: xor and shift distribution -/

theorem shiftRight_xor_distrib (a b k : Nat) : (a ^^^ b) >>> k = a >>> k ^^^ b >>> k := by
  apply Nat.eq_of_testBit_eq
  intro i
  simp [Nat.testBit_shiftRight, Nat.testBit_xor]

theorem shiftLeft_xor_distrib (a b k : Nat) : (a ^^^ b) <<< k = a <<< k ^^^ b <<< k := by
  apply Nat.eq_of_testBit_eq
  intro i
  simp only [Nat.testBit_shiftLeft, Nat.testBit_xor]
  by_cases h : k ≤ i <;> simp [h]

theorem shiftRight_eq_zero_of_lt (a k : Nat) (h : a < 2 ^ k) : a >>> k = 0 := by
  rw [Nat.shiftRight_eq_div_pow]
  exact Nat.div_eq_of_lt h

theorem xor_left_comm (a b c : Nat) : a ^^^ (b ^^^ c) = b ^^^ (a ^^^ c) := by
  rw [← Nat.xor_assoc, Nat.xor_comm a b, Nat.xor_assoc]

theorem and31_lt (x : Nat) : x &&& 31 < 32 := by
  have h := Nat.and_le_right (n := x) (m := 31)
  omega

theorem and31_eq_mod (x : Nat) : x &&& 31 = x % 32 := by
  have h31 : (31 : Nat) = 2 ^ 5 - 1 := by norm_num
  rw [h31, Nat.and_pow_two_sub_one_eq_mod]

theorem shiftLeft_xor_eq_add (a b : Nat) (hb : b < 32) : (a <<< 5) ^^^ b = a * 32 + b := by
  have hb5 : b < 2 ^ 5 := by norm_num; omega
  apply Nat.eq_of_testBit_eq
  intro j
  have hrhs : a * 32 + b = 2 ^ 5 * a + b := by ring_nf
  rw [hrhs, Nat.testBit_mul_pow_two_add a hb5 j, Nat.testBit_xor, Nat.testBit_shiftLeft]
  by_cases hj : j < 5
  · have : ¬ (5 ≤ j) := by omega
    simp [hj, this]
  · have h5j : 5 ≤ j := by omega
    have hbf : b.testBit j = false :=
      Nat.testBit_lt_two_pow (lt_of_lt_of_le hb5 (Nat.pow_le_pow_right (by norm_num) h5j))
    simp [hj, h5j, hbf]

/-! ## Lemmas: polymod checksum -/

theorem bech32Taps_lt (t : Nat) : bech32Taps t < 2 ^ 30 := by
  unfold bech32Taps
  have h0 : (if t.testBit 0 then 996825010 else 0) < 2 ^ 30 := by split <;> norm_num
  have h1 : (if t.testBit 1 then 642813549 else 0) < 2 ^ 30 := by split <;> norm_num
  have h2 : (if t.testBit 2 then 513874426 else 0) < 2 ^ 30 := by split <;> norm_num
  have h3 : (if t.testBit 3 then 1027748829 else 0) < 2 ^ 30 := by split <;> norm_num
  have h4 : (if t.testBit 4 then 705979059 else 0) < 2 ^ 30 := by split <;> norm_num
  exact Nat.xor_lt_two_pow (Nat.xor_lt_two_pow (Nat.xor_lt_two_pow (Nat.xor_lt_two_pow h0 h1) h2) h3) h4

theorem bech32Taps_xor : ∀ t1 < 32, ∀ t2 < 32,
    bech32Taps (t1 ^^^ t2) = bech32Taps t1 ^^^ bech32Taps t2 := by decide

theorem bech32Taps_low_inj : ∀ t1 < 32, ∀ t2 < 32,
    bech32Taps t1 &&& 31 = bech32Taps t2 &&& 31 → t1 = t2 := by decide

theorem polymodStep_lt (chk b : Nat) (hb : b < 32) : polymodStep chk b < 2 ^ 30 := by
  unfold polymodStep
  have hmask : chk &&& 33554431 ≤ 33554431 := Nat.and_le_right
  have hshift : (chk &&& 33554431) <<< 5 < 2 ^ 30 := by
    rw [Nat.shiftLeft_eq]
    norm_num
    omega
  have hb30 : b < 2 ^ 30 := by norm_num; omega
  exact Nat.xor_lt_two_pow (Nat.xor_lt_two_pow hshift hb30) (bech32Taps_lt _)

theorem stepZ_lt (X : Nat) : stepZ X < 2 ^ 30 := polymodStep_lt X 0 (by norm_num)

theorem foldl_polymodStep_lt (gs : List Nat) : ∀ S, S < 2 ^ 30 → (∀ b ∈ gs, b < 32) →
    gs.foldl polymodStep S < 2 ^ 30 := by
  induction gs with
  | nil =>
    intro S hS _
    simpa using hS
  | cons b rest ih =>
    intro S hS hb
    simp only [List.foldl_cons]
    exact ih _ (polymodStep_lt S b (hb b (by simp))) (fun x hx => hb x (by simp [hx]))

theorem polymodStep_eq (X b : Nat) : polymodStep X b = stepZ X ^^^ b := by
  unfold stepZ polymodStep
  rw [Nat.xor_zero]
  rw [Nat.xor_assoc, Nat.xor_assoc, Nat.xor_comm b]

theorem polymodStep_zero_xor (A b : Nat) : polymodStep A b = polymodStep A 0 ^^^ b := by
  rw [polymodStep_eq, polymodStep_eq, Nat.xor_zero]

theorem polymodStep_xor_small (X D b : Nat) (hD : D < 2 ^ 25) :
    polymodStep (X ^^^ D) b = polymodStep X b ^^^ (D <<< 5) := by
  unfold polymodStep
  have hDM : D &&& 33554431 = D := by
    have h25 : (33554431 : Nat) = 2 ^ 25 - 1 := by norm_num
    rw [h25, Nat.and_pow_two_sub_one_of_lt_two_pow hD]
  rw [Nat.and_xor_distrib_right, hDM, shiftLeft_xor_distrib, shiftRight_xor_distrib,
    shiftRight_eq_zero_of_lt D 25 hD, Nat.xor_zero]
  simp [Nat.xor_assoc, Nat.xor_comm, xor_left_comm]

theorem top_lt_32 (X : Nat) (hX : X < 2 ^ 30) : X >>> 25 < 32 := by
  rw [Nat.shiftRight_eq_div_pow]
  have h1 : (2 : Nat) ^ 25 = 33554432 := by norm_num
  have h2 : (2 : Nat) ^ 30 = 1073741824 := by norm_num
  rw [h1]
  omega

theorem polymodStep_xor (X D b : Nat) (hX : X < 2 ^ 30) (hD : D < 2 ^ 30) :
    polymodStep (X ^^^ D) b = polymodStep X b ^^^ stepZ D := by
  unfold polymodStep stepZ polymodStep
  rw [Nat.and_xor_distrib_right, shiftLeft_xor_distrib, shiftRight_xor_distrib,
    bech32Taps_xor (X >>> 25) (top_lt_32 X hX) (D >>> 25) (top_lt_32 D hD), Nat.xor_zero]
  simp [Nat.xor_assoc, Nat.xor_comm, xor_left_comm]

theorem xor_shift_lt (D c k : Nat) (hD : D < 2 ^ k) (hc : c < 32) (h5 : 5 ≤ k) :
    (D <<< 5) ^^^ c < 2 ^ (k + 5) := by
  have h1 : D <<< 5 < 2 ^ (k + 5) := by
    rw [Nat.shiftLeft_eq, pow_add]
    exact Nat.mul_lt_mul_of_lt_of_le hD (le_refl _) (Nat.two_pow_pos 5)
  have h2 : c < 2 ^ (k + 5) := by
    have h32 : (32 : Nat) ≤ 2 ^ (k + 5) := by
      have : (32 : Nat) = 2 ^ 5 := by norm_num
      rw [this]
      exact Nat.pow_le_pow_right (by norm_num) (by omega)
    omega
  exact Nat.xor_lt_two_pow h1 h2

theorem chain_step (Z D b : Nat) (hD : D < 2 ^ 25) :
    polymodStep (Z ^^^ D) b = polymodStep Z 0 ^^^ ((D <<< 5) ^^^ b) := by
  rw [polymodStep_xor_small Z D b hD, polymodStep_zero_xor Z b]
  simp [Nat.xor_assoc, Nat.xor_comm, xor_left_comm]

theorem foldl_six (A c0 c1 c2 c3 c4 c5 : Nat)
    (h0 : c0 < 32) (h1 : c1 < 32) (h2 : c2 < 32) (h3 : c3 < 32) (h4 : c4 < 32) :
    [c0, c1, c2, c3, c4, c5].foldl polymodStep A
      = [0, 0, 0, 0, 0, 0].foldl polymodStep A ^^^
        (((((c0 <<< 5 ^^^ c1) <<< 5 ^^^ c2) <<< 5 ^^^ c3) <<< 5 ^^^ c4) <<< 5 ^^^ c5) := by
  have p25 : (2 : Nat) ^ 25 = 33554432 := by norm_num
  have d0 : c0 < 2 ^ 25 := by omega
  have d1 : c0 <<< 5 ^^^ c1 < 2 ^ 10 := xor_shift_lt c0 c1 5 (by norm_num; omega) h1 (by norm_num)
  have d1q : c0 <<< 5 ^^^ c1 < 2 ^ 25 :=
    lt_of_lt_of_le d1 (Nat.pow_le_pow_right (by norm_num) (by norm_num))
  have d2 : (c0 <<< 5 ^^^ c1) <<< 5 ^^^ c2 < 2 ^ 15 := xor_shift_lt _ c2 10 d1 h2 (by norm_num)
  have d2q : (c0 <<< 5 ^^^ c1) <<< 5 ^^^ c2 < 2 ^ 25 :=
    lt_of_lt_of_le d2 (Nat.pow_le_pow_right (by norm_num) (by norm_num))
  have d3 : ((c0 <<< 5 ^^^ c1) <<< 5 ^^^ c2) <<< 5 ^^^ c3 < 2 ^ 20 :=
    xor_shift_lt _ c3 15 d2 h3 (by norm_num)
  have d3q : ((c0 <<< 5 ^^^ c1) <<< 5 ^^^ c2) <<< 5 ^^^ c3 < 2 ^ 25 :=
    lt_of_lt_of_le d3 (Nat.pow_le_pow_right (by norm_num) (by norm_num))
  have d4 : (((c0 <<< 5 ^^^ c1) <<< 5 ^^^ c2) <<< 5 ^^^ c3) <<< 5 ^^^ c4 < 2 ^ 25 :=
    xor_shift_lt _ c4 20 d3 h4 (by norm_num)
  simp only [List.foldl_cons, List.foldl_nil]
  rw [polymodStep_zero_xor A c0]
  rw [chain_step _ c0 c1 d0]
  rw [chain_step _ _ c2 d1q]
  rw [chain_step _ _ c3 d2q]
  rw [chain_step _ _ c4 d3q]
  rw [chain_step _ _ c5 d4]

theorem recompose_groups (pm : Nat) (hpm : pm < 2 ^ 30) :
    (((((pm >>> 25 &&& 31) <<< 5 ^^^ (pm >>> 20 &&& 31)) <<< 5 ^^^ (pm >>> 15 &&& 31)) <<< 5
        ^^^ (pm >>> 10 &&& 31)) <<< 5 ^^^ (pm >>> 5 &&& 31)) <<< 5 ^^^ (pm &&& 31) = pm := by
  rw [shiftLeft_xor_eq_add _ _ (and31_lt _), shiftLeft_xor_eq_add _ _ (and31_lt _),
    shiftLeft_xor_eq_add _ _ (and31_lt _), shiftLeft_xor_eq_add _ _ (and31_lt _),
    shiftLeft_xor_eq_add _ _ (and31_lt _)]
  simp only [and31_eq_mod, Nat.shiftRight_eq_div_pow]
  have e25 : (2 : Nat) ^ 25 = 33554432 := by norm_num
  have e20 : (2 : Nat) ^ 20 = 1048576 := by norm_num
  have e15 : (2 : Nat) ^ 15 = 32768 := by norm_num
  have e10 : (2 : Nat) ^ 10 = 1024 := by norm_num
  have e5 : (2 : Nat) ^ 5 = 32 := by norm_num
  have e30 : (2 : Nat) ^ 30 = 1073741824 := by norm_num
  rw [e25, e20, e15, e10, e5]
  rw [e30] at hpm
  omega

theorem checksumGroups_foldl (A pm : Nat) (hpm : pm < 2 ^ 30) :
    (checksumGroups pm).foldl polymodStep A
      = [0, 0, 0, 0, 0, 0].foldl polymodStep A ^^^ pm := by
  unfold checksumGroups
  rw [foldl_six A _ _ _ _ _ _ (and31_lt _) (and31_lt _) (and31_lt _) (and31_lt _) (and31_lt _)]
  rw [recompose_groups pm hpm]

theorem bech32_verify_checksum (hl vals : List Nat)
    (hh : ∀ b ∈ hrpExpand hl, b < 32) (hv : ∀ b ∈ vals, b < 32) :
    bech32Polymod (hrpExpand hl ++ (vals ++ createChecksum hl vals)) = 1 := by
  have hpre : ∀ b ∈ hrpExpand hl ++ vals, b < 32 := by
    intro b hb
    rcases List.mem_append.mp hb with h | h
    · exact hh b h
    · exact hv b h
  have hA : (hrpExpand hl ++ vals).foldl polymodStep 1 < 2 ^ 30 :=
    foldl_polymodStep_lt _ 1 (by norm_num) hpre
  have hZ : [0, 0, 0, 0, 0, 0].foldl polymodStep
      ((hrpExpand hl ++ vals).foldl polymodStep 1) < 2 ^ 30 :=
    foldl_polymodStep_lt _ _ hA (by intro b hb; simp at hb; omega)
  have hpm : ([0, 0, 0, 0, 0, 0].foldl polymodStep
      ((hrpExpand hl ++ vals).foldl polymodStep 1)) ^^^ 1 < 2 ^ 30 :=
    Nat.xor_lt_two_pow hZ (by norm_num)
  have hcs : createChecksum hl vals = checksumGroups
      (([0, 0, 0, 0, 0, 0].foldl polymodStep
        ((hrpExpand hl ++ vals).foldl polymodStep 1)) ^^^ 1) := by
    unfold createChecksum bech32Polymod
    rw [show hrpExpand hl ++ vals ++ [0, 0, 0, 0, 0, 0]
      = (hrpExpand hl ++ vals) ++ [0, 0, 0, 0, 0, 0] from by rw [List.append_assoc]]
    rw [List.foldl_append]
  unfold bech32Polymod
  rw [show hrpExpand hl ++ (vals ++ createChecksum hl vals)
    = (hrpExpand hl ++ vals) ++ createChecksum hl vals from by rw [List.append_assoc]]
  rw [List.foldl_append, hcs, checksumGroups_foldl _ _ hpm]
  rw [Nat.xor_cancel_left]

/-! ## Lemmas: charset and parsing -/

theorem charset_props : ∀ d < 32, 33 ≤ charsetChar d ∧ charsetChar d ≤ 126 ∧
    isUpperChar (charsetChar d) = false ∧ toLowerChar (charsetChar d) = charsetChar d ∧
    charsetChar d ≠ 49 ∧ charsetIdx (charsetChar d) = some d := by decide

theorem charsetIdxAux_spec : ∀ l : List Nat, ∀ c i k, charsetIdxAux l c i = some k →
    i ≤ k ∧ k - i < l.length ∧ l.getD (k - i) 0 = c := by
  intro l
  induction l with
  | nil =>
    intro c i k h
    simp [charsetIdxAux] at h
  | cons x xs ih =>
    intro c i k h
    unfold charsetIdxAux at h
    by_cases hx : x = c
    · rw [if_pos hx] at h
      injection h with h2
      subst h2
      refine ⟨le_refl _, by simp, ?_⟩
      simpa using hx
    · rw [if_neg hx] at h
      obtain ⟨h1, h2, h3⟩ := ih c (i + 1) k h
      refine ⟨by omega, by simp; omega, ?_⟩
      have he : k - i = (k - (i + 1)) + 1 := by omega
      rw [he]
      simpa using h3

theorem charsetIdx_some (c k : Nat) (h : charsetIdx c = some k) :
    k < 32 ∧ charsetChar k = c := by
  obtain ⟨h1, h2, h3⟩ := charsetIdxAux_spec CHARSET c 0 k h
  have hlen : CHARSET.length = 32 := rfl
  rw [hlen] at h2
  simp only [Nat.sub_zero] at h2 h3
  exact ⟨h2, h3⟩

theorem allCharsetIdx_lt : ∀ l vs : List Nat, allCharsetIdx l = some vs → ∀ v ∈ vs, v < 32 := by
  intro l
  induction l with
  | nil =>
    intro vs h v hv
    simp [allCharsetIdx] at h
    subst h
    simp at hv
  | cons c cs ih =>
    intro vs h v hv
    unfold allCharsetIdx at h
    cases hc : charsetIdx c with
    | none => rw [hc] at h; simp at h
    | some d =>
      rw [hc] at h
      cases hrest : allCharsetIdx cs with
      | none => rw [hrest] at h; simp at h
      | some ds =>
        rw [hrest] at h
        injection h with h2
        subst h2
        rcases List.mem_cons.mp hv with h | h
        · subst h
          exact (charsetIdx_some c v hc).1
        · exact ih ds hrest v h

theorem allCharsetIdx_map (vs : List Nat) (h : ∀ v ∈ vs, v < 32) :
    allCharsetIdx (vs.map charsetChar) = some vs := by
  induction vs with
  | nil => rfl
  | cons v rest ih =>
    show allCharsetIdx (charsetChar v :: rest.map charsetChar) = some (v :: rest)
    unfold allCharsetIdx
    rw [(charset_props v (h v (by simp))).2.2.2.2.2, ih (fun x hx => h x (by simp [hx]))]

theorem lastSepIdx_none (l : List Nat) (h : ∀ c ∈ l, c ≠ 49) : lastSepIdx l = none := by
  induction l with
  | nil => rfl
  | cons c rest ih =>
    unfold lastSepIdx
    rw [ih (fun x hx => h x (by simp [hx]))]
    simp [h c (by simp)]

theorem lastSepIdx_append (xs ys : List Nat) (h : ∀ c ∈ ys, c ≠ 49) :
    lastSepIdx (xs ++ 49 :: ys) = some xs.length := by
  induction xs with
  | nil =>
    show lastSepIdx (49 :: ys) = some 0
    unfold lastSepIdx
    rw [lastSepIdx_none ys h]
    simp
  | cons x rest ih =>
    show lastSepIdx (x :: (rest ++ 49 :: ys)) = some (rest.length + 1)
    unfold lastSepIdx
    rw [ih]

theorem toLowerChar_eq_self (c : Nat) (h : isUpperChar c = false) : toLowerChar c = c := by
  simp [toLowerChar, h]

theorem map_toLowerChar_eq_self (l : List Nat) (h : ∀ c ∈ l, isUpperChar c = false) :
    l.map toLowerChar = l := by
  have h2 : ∀ c ∈ l, toLowerChar c = id c := fun c hc => toLowerChar_eq_self c (h c hc)
  rw [List.map_congr_left h2, List.map_id]

theorem convert8to5_lt (payload : List Nat) : ∀ v ∈ convert8to5 payload, v < 32 :=
  chunks5_lt (pad5 (toBits8 payload))

theorem createChecksum_lt (hl vals : List Nat) : ∀ v ∈ createChecksum hl vals, v < 32 := by
  intro v hv
  unfold createChecksum checksumGroups at hv
  simp at hv
  rcases hv with h | h | h | h | h | h <;> rw [h] <;> exact and31_lt _

theorem hrpExpand_lt (l : List Nat) (h : ∀ c ∈ l, c ≤ 126) : ∀ b ∈ hrpExpand l, b < 32 := by
  intro b hb
  unfold hrpExpand at hb
  rcases List.mem_append.mp hb with h1 | h1
  · obtain ⟨c, hc, he⟩ := List.mem_map.mp h1
    have := h c hc
    rw [← he, Nat.shiftRight_eq_div_pow]
    have h5 : (2 : Nat) ^ 5 = 32 := by norm_num
    rw [h5]
    omega
  · rcases List.mem_cons.mp h1 with h2 | h2
    · omega
    · obtain ⟨c, hc, he⟩ := List.mem_map.mp h2
      rw [← he]
      exact and31_lt c

theorem bech32Parse_encode (hrp payload : List Nat)
    (hl1 : 1 ≤ hrp.length) (hl2 : hrp.length ≤ 83)
    (hchars : ∀ c ∈ hrp, 33 ≤ c ∧ c ≤ 126 ∧ isUpperChar c = false) :
    bech32Parse (hrp ++ 49 ::
        (convert8to5 payload ++ createChecksum hrp (convert8to5 payload)).map charsetChar)
      = Except.ok (hrp, convert8to5 payload ++ createChecksum hrp (convert8to5 payload)) := by
  have hv32 : ∀ v ∈ convert8to5 payload ++ createChecksum hrp (convert8to5 payload), v < 32 := by
    intro v hv
    rcases List.mem_append.mp hv with h | h
    · exact convert8to5_lt payload v h
    · exact createChecksum_lt hrp (convert8to5 payload) v h
  have hdata : ∀ c ∈ (convert8to5 payload ++
      createChecksum hrp (convert8to5 payload)).map charsetChar,
      33 ≤ c ∧ c ≤ 126 ∧ isUpperChar c = false ∧ toLowerChar c = c ∧ c ≠ 49 := by
    intro c hc
    obtain ⟨v, hv, he⟩ := List.mem_map.mp hc
    obtain ⟨p1, p2, p3, p4, p5, _⟩ := charset_props v (hv32 v hv)
    rw [← he]
    exact ⟨p1, p2, p3, p4, p5⟩
  have hmem : ∀ c ∈ hrp ++ 49 ::
      (convert8to5 payload ++ createChecksum hrp (convert8to5 payload)).map charsetChar,
      33 ≤ c ∧ c ≤ 126 ∧ isUpperChar c = false := by
    intro c hc
    rcases List.mem_append.mp hc with h | h
    · exact hchars c h
    · rcases List.mem_cons.mp h with h2 | h2
      · subst h2
        refine ⟨by norm_num, by norm_num, by decide⟩
      · obtain ⟨p1, p2, p3, _, _⟩ := hdata c h2
        exact ⟨p1, p2, p3⟩
  have hany1 : ((hrp ++ 49 ::
      (convert8to5 payload ++ createChecksum hrp (convert8to5 payload)).map charsetChar).any
      (fun c => decide (c < 33) || decide (126 < c))) = false := by
    rw [List.any_eq_false]
    intro c hc
    obtain ⟨p1, p2, _⟩ := hmem c hc
    simp
    omega
  have hany2 : ((hrp ++ 49 ::
      (convert8to5 payload ++ createChecksum hrp (convert8to5 payload)).map charsetChar).any
      isUpperChar) = false := by
    rw [List.any_eq_false]
    intro c hc
    simp [(hmem c hc).2.2]
  have hmap : (hrp ++ 49 ::
      (convert8to5 payload ++ createChecksum hrp (convert8to5 payload)).map charsetChar).map
      toLowerChar = hrp ++ 49 ::
      (convert8to5 payload ++ createChecksum hrp (convert8to5 payload)).map charsetChar := by
    apply map_toLowerChar_eq_self
    intro c hc
    exact (hmem c hc).2.2
  have hsep : lastSepIdx (hrp ++ 49 ::
      (convert8to5 payload ++ createChecksum hrp (convert8to5 payload)).map charsetChar)
      = some hrp.length := by
    apply lastSepIdx_append
    intro c hc
    exact (hdata c hc).2.2.2.2
  have hlen : (hrp ++ 49 ::
      (convert8to5 payload ++ createChecksum hrp (convert8to5 payload)).map charsetChar).length
      = hrp.length + 1 + ((convert8to5 payload).length + 6) := by
    simp [List.length_append, createChecksum_length]
    omega
  have hdrop : (hrp ++ 49 ::
      (convert8to5 payload ++ createChecksum hrp (convert8to5 payload)).map charsetChar).drop
      (hrp.length + 1)
      = (convert8to5 payload ++ createChecksum hrp (convert8to5 payload)).map charsetChar := by
    rw [List.append_cons]
    apply List.drop_left'
    simp
  have htake : (hrp ++ 49 ::
      (convert8to5 payload ++ createChecksum hrp (convert8to5 payload)).map charsetChar).take
      hrp.length = hrp := List.take_left hrp _
  unfold bech32Parse
  rw [hany1, hany2]
  simp only [Bool.false_and, Bool.false_eq_true, if_false]
  rw [hmap, hsep]
  simp only []
  rw [if_neg (by omega : ¬ (hrp.length < 1 ∨ 83 < hrp.length))]
  rw [if_neg (by rw [hlen]; omega)]
  rw [hdrop, allCharsetIdx_map _ hv32, htake]

theorem bech32Decode_of_parse (str hh vals : List Nat)
    (hp : bech32Parse str = Except.ok (hh, vals)) :
    bech32Decode str = if bech32Polymod (hrpExpand hh ++ vals) = 1 then
      (match convert5to8 (vals.take (vals.length - 6)) with
       | some payload => Except.ok payload
       | none => Except.error Bech32Err.InvalidCharacter)
    else Except.error Bech32Err.ChecksumMismatch := by
  unfold bech32Decode
  rw [hp]

theorem bech32Decode_of_parse_error (str : List Nat) (e : Bech32Err)
    (hp : bech32Parse str = Except.error e) : bech32Decode str = Except.error e := by
  unfold bech32Decode
  rw [hp]

/-! ## Claim theorems: Bech32 round trip -/

/-- C4 counterexample: the hrp consisting of the single space character
has length within 1..83 and the payload is empty (within all limits),
yet decoding the encoding does not return the payload: decoding fails
with InvalidCharacter because the space is outside the visible range the
decoder accepts. -/
theorem claim4_counterexample :
    1 ≤ ([32] : List Nat).length ∧ ([32] : List Nat).length ≤ 83 ∧
    Except.bind (bech32Encode [32] []) bech32Decode
      = Except.error Bech32Err.InvalidCharacter ∧
    Except.bind (bech32Encode [32] []) bech32Decode ≠ Except.ok [] := by
  refine ⟨by decide, by decide, by decide, by decide⟩

/-- C4 (amended): for every (hrp, payload) pair with hrp length between
1 and 83, hrp characters in the visible range 33..126 and not uppercase,
payload bytes below 256 and total encoded length within the 90-character
cap, Bech32 decoding of the Bech32 encoding returns exactly the original
payload; for every hrp whose length is outside 1..83 encoding fails with
InvalidHrp. -/
theorem claim4_round_trip_amended (hrp payload : List Nat)
    (hl1 : 1 ≤ hrp.length) (hl2 : hrp.length ≤ 83)
    (hchars : ∀ c ∈ hrp, 33 ≤ c ∧ c ≤ 126 ∧ isUpperChar c = false)
    (hbytes : ∀ b ∈ payload, b < 256)
    (hlen : hrp.length + 1 + (convert8to5 payload).length + 6 ≤ 90) :
    Except.bind (bech32Encode hrp payload) bech32Decode = Except.ok payload ∧
    ∀ h2 pl : List Nat, (h2.length < 1 ∨ 83 < h2.length) →
      bech32Encode h2 pl = Except.error Bech32Err.InvalidHrp := by
  constructor
  · have henc : bech32Encode hrp payload = Except.ok (hrp ++ 49 ::
        (convert8to5 payload ++ createChecksum hrp (convert8to5 payload)).map charsetChar) := by
      unfold bech32Encode
      rw [if_neg (by omega), if_neg (by omega)]
    rw [henc]
    show bech32Decode (hrp ++ 49 ::
      (convert8to5 payload ++ createChecksum hrp (convert8to5 payload)).map charsetChar)
      = Except.ok payload
    rw [bech32Decode_of_parse _ _ _ (bech32Parse_encode hrp payload hl1 hl2 hchars)]
    rw [if_pos (bech32_verify_checksum hrp (convert8to5 payload)
      (hrpExpand_lt hrp (fun c hc => (hchars c hc).2.1)) (convert8to5_lt payload))]
    have hlen6 : (convert8to5 payload ++ createChecksum hrp (convert8to5 payload)).length - 6
        = (convert8to5 payload).length := by
      simp [createChecksum_length]
    rw [hlen6]
    rw [List.take_left (convert8to5 payload) (createChecksum hrp (convert8to5 payload))]
    rw [convert5to8_convert8to5 payload hbytes]
  · intro h2 pl hbad
    unfold bech32Encode
    rw [if_pos hbad]

/-- C4 witness: a concrete three-byte payload with hrp a round-trips
through the codec. -/
theorem claim4_round_trip_amended_witness :
    Except.bind (bech32Encode [97] [0, 1, 2]) bech32Decode = Except.ok [0, 1, 2] :=
  (claim4_round_trip_amended [97] [0, 1, 2] (by decide) (by decide) (by decide) (by decide)
    (by decide)).1

/-! ## Lemmas: checksum error detection -/

theorem nat_xor_eq_zero_iff (a b : Nat) : a ^^^ b = 0 ↔ a = b := by
  constructor
  · intro h
    have : a ^^^ (a ^^^ b) = a ^^^ 0 := by rw [h]
    rw [Nat.xor_cancel_left, Nat.xor_zero] at this
    exact this.symm
  · intro h
    rw [h, Nat.xor_self]

theorem shiftLeft5_and31 (x : Nat) : (x <<< 5) &&& 31 = 0 := by
  rw [and31_eq_mod, Nat.shiftLeft_eq]
  have h5 : (2 : Nat) ^ 5 = 32 := by norm_num
  rw [h5]
  omega

theorem stepZ_low (X : Nat) : stepZ X &&& 31 = bech32Taps (X >>> 25) &&& 31 := by
  unfold stepZ polymodStep
  rw [Nat.xor_zero, Nat.and_xor_distrib_right, shiftLeft5_and31, Nat.zero_xor]

theorem stepZ_inj (c1 c2 : Nat) (h1 : c1 < 2 ^ 30) (h2 : c2 < 2 ^ 30)
    (h : stepZ c1 = stepZ c2) : c1 = c2 := by
  have htop : c1 >>> 25 = c2 >>> 25 := by
    apply bech32Taps_low_inj _ (top_lt_32 c1 h1) _ (top_lt_32 c2 h2)
    rw [← stepZ_low, ← stepZ_low, h]
  have htaps : bech32Taps (c1 >>> 25) = bech32Taps (c2 >>> 25) := by rw [htop]
  have hz := h
  unfold stepZ polymodStep at hz
  rw [Nat.xor_zero, Nat.xor_zero, htaps] at hz
  have hshift : (c1 &&& 33554431) <<< 5 = (c2 &&& 33554431) <<< 5 :=
    Nat.xor_left_inj.mp hz
  rw [Nat.shiftLeft_eq, Nat.shiftLeft_eq] at hshift
  have hmask : c1 &&& 33554431 = c2 &&& 33554431 :=
    Nat.eq_of_mul_eq_mul_right (by positivity) hshift
  have hm : (33554431 : Nat) = 2 ^ 25 - 1 := by norm_num
  rw [hm, Nat.and_pow_two_sub_one_eq_mod, Nat.and_pow_two_sub_one_eq_mod] at hmask
  rw [Nat.shiftRight_eq_div_pow, Nat.shiftRight_eq_div_pow] at htop
  have e25 : (2 : Nat) ^ 25 = 33554432 := by norm_num
  rw [e25] at hmask htop
  omega

theorem stepZ_ne_zero (X : Nat) (hX : X < 2 ^ 30) (h : X ≠ 0) : stepZ X ≠ 0 := by
  intro hc
  have h0 : stepZ 0 = 0 := by decide
  exact h (stepZ_inj X 0 hX (by norm_num) (by rw [hc, h0]))

theorem stepZ_iter_ne_zero (k : Nat) (D : Nat) (hD : D < 2 ^ 30) (h : D ≠ 0) :
    stepZ^[k] D ≠ 0 ∧ stepZ^[k] D < 2 ^ 30 := by
  induction k with
  | zero => simpa using ⟨h, hD⟩
  | succ m ih =>
    rw [Function.iterate_succ_apply']
    exact ⟨stepZ_ne_zero _ ih.2 ih.1, stepZ_lt _⟩

theorem foldl_polymodStep_xor (gs : List Nat) : ∀ S D, S < 2 ^ 30 → D < 2 ^ 30 →
    (∀ b ∈ gs, b < 32) →
    gs.foldl polymodStep (S ^^^ D) = gs.foldl polymodStep S ^^^ stepZ^[gs.length] D := by
  induction gs with
  | nil =>
    intro S D _ _ _
    simp
  | cons b rest ih =>
    intro S D hS hD hb
    simp only [List.foldl_cons, List.length_cons]
    rw [polymodStep_xor S D b hS hD]
    rw [ih (polymodStep S b) (stepZ D) (polymodStep_lt S b (hb b (by simp))) (stepZ_lt D)
      (fun x hx => hb x (by simp [hx]))]
    rw [Function.iterate_succ_apply]

theorem polymodStep_diff (A a b : Nat) : polymodStep A b = polymodStep A a ^^^ (a ^^^ b) := by
  rw [polymodStep_eq, polymodStep_eq, Nat.xor_assoc, Nat.xor_cancel_left]

theorem foldl_single_diff (pre suf : List Nat) (a b S : Nat)
    (hS : S < 2 ^ 30) (hpre : ∀ x ∈ pre, x < 32) (ha : a < 32) (hb : b < 32)
    (hsuf : ∀ x ∈ suf, x < 32) (hab : a ≠ b) :
    (pre ++ a :: suf).foldl polymodStep S ≠ (pre ++ b :: suf).foldl polymodStep S := by
  rw [List.foldl_append, List.foldl_append]
  simp only [List.foldl_cons]
  have hAlt : pre.foldl polymodStep S < 2 ^ 30 := foldl_polymodStep_lt pre S hS hpre
  rw [polymodStep_diff (pre.foldl polymodStep S) a b]
  have hD : a ^^^ b ≠ 0 := fun hc => hab ((nat_xor_eq_zero_iff a b).mp hc)
  have hD30 : a ^^^ b < 2 ^ 30 :=
    Nat.xor_lt_two_pow (by omega) (by omega)
  rw [foldl_polymodStep_xor suf _ _ (polymodStep_lt _ a ha) hD30 hsuf]
  intro hc
  have hT := (stepZ_iter_ne_zero suf.length (a ^^^ b) hD30 hD).1
  apply hT
  have h2 : suf.foldl polymodStep (polymodStep (pre.foldl polymodStep S) a) ^^^
      stepZ^[suf.length] (a ^^^ b)
      = suf.foldl polymodStep (polymodStep (pre.foldl polymodStep S) a) ^^^ 0 := by
    rw [Nat.xor_zero]
    exact hc.symm
  exact Nat.xor_right_inj.mp h2

theorem stepZ_iter_ge_32 : ∀ m < 84, ∀ d < 4, 1 ≤ m → 1 ≤ d → 32 ≤ stepZ^[m + 1] d := by decide

theorem xor_lt_32 (a b : Nat) (ha : a < 32) (hb : b < 32) : a ^^^ b < 32 := by
  have h5 : (32 : Nat) = 2 ^ 5 := by norm_num
  rw [h5] at ha hb ⊢
  exact Nat.xor_lt_two_pow ha hb

theorem foldl_two_diff (pre mid suf : List Nat) (a1 b1 a2 b2 S : Nat)
    (hS : S < 2 ^ 30) (hpre : ∀ x ∈ pre, x < 32) (hmid : ∀ x ∈ mid, x < 32)
    (hsuf : ∀ x ∈ suf, x < 32)
    (ha1 : a1 < 4) (hb1 : b1 < 4) (ha2 : a2 < 32) (hb2 : b2 < 32)
    (h1 : a1 ≠ b1) (hm1 : 1 ≤ mid.length) (hm2 : mid.length ≤ 83) :
    (pre ++ a1 :: (mid ++ a2 :: suf)).foldl polymodStep S
      ≠ (pre ++ b1 :: (mid ++ b2 :: suf)).foldl polymodStep S := by
  rw [List.foldl_append, List.foldl_append]
  simp only [List.foldl_cons]
  rw [List.foldl_append, List.foldl_append]
  simp only [List.foldl_cons]
  have hAlt : pre.foldl polymodStep S < 2 ^ 30 := foldl_polymodStep_lt pre S hS hpre
  have ha132 : a1 < 32 := by omega
  have hb132 : b1 < 32 := by omega
  have hX1 : polymodStep (pre.foldl polymodStep S) a1 < 2 ^ 30 := polymodStep_lt _ a1 ha132
  have hdel : a1 ^^^ b1 ≠ 0 := fun hc => h1 ((nat_xor_eq_zero_iff a1 b1).mp hc)
  have hdel4 : a1 ^^^ b1 < 4 := by
    have h4 : (4 : Nat) = 2 ^ 2 := by norm_num
    rw [h4] at ha1 hb1 ⊢
    exact Nat.xor_lt_two_pow ha1 hb1
  have hdel30 : a1 ^^^ b1 < 2 ^ 30 := by
    have : (2 : Nat) ^ 30 = 1073741824 := by norm_num
    omega
  rw [polymodStep_diff (pre.foldl polymodStep S) a1 b1]
  rw [foldl_polymodStep_xor mid _ _ hX1 hdel30 hmid]
  have hY1 : mid.foldl polymodStep (polymodStep (pre.foldl polymodStep S) a1) < 2 ^ 30 :=
    foldl_polymodStep_lt mid _ hX1 hmid
  have hiter := stepZ_iter_ne_zero mid.length (a1 ^^^ b1) hdel30 hdel
  rw [polymodStep_xor _ (stepZ^[mid.length] (a1 ^^^ b1)) b2 hY1 hiter.2]
  rw [polymodStep_diff (mid.foldl polymodStep (polymodStep (pre.foldl polymodStep S) a1)) a2 b2]
  rw [Nat.xor_assoc]
  have hE : (a2 ^^^ b2) ^^^ stepZ (stepZ^[mid.length] (a1 ^^^ b1)) ≠ 0 := by
    intro hc
    have heq := (nat_xor_eq_zero_iff _ _).mp hc
    have hge : 32 ≤ stepZ (stepZ^[mid.length] (a1 ^^^ b1)) := by
      have hs : stepZ (stepZ^[mid.length] (a1 ^^^ b1)) = stepZ^[mid.length + 1] (a1 ^^^ b1) :=
        (Function.iterate_succ_apply' stepZ mid.length (a1 ^^^ b1)).symm
      rw [hs]
      exact stepZ_iter_ge_32 mid.length (by omega) (a1 ^^^ b1) hdel4 hm1 (by omega)
    have hlt : a2 ^^^ b2 < 32 := xor_lt_32 a2 b2 ha2 hb2
    omega
  have hE30 : (a2 ^^^ b2) ^^^ stepZ (stepZ^[mid.length] (a1 ^^^ b1)) < 2 ^ 30 := by
    apply Nat.xor_lt_two_pow
    · have : (2 : Nat) ^ 30 = 1073741824 := by norm_num
      have hlt : a2 ^^^ b2 < 32 := xor_lt_32 a2 b2 ha2 hb2
      omega
    · exact stepZ_lt _
  have hZ1 : polymodStep (mid.foldl polymodStep
      (polymodStep (pre.foldl polymodStep S) a1)) a2 < 2 ^ 30 := polymodStep_lt _ a2 ha2
  rw [foldl_polymodStep_xor suf _ _ hZ1 hE30 hsuf]
  intro hc
  apply (stepZ_iter_ne_zero suf.length _ hE30 hE).1
  have h2 : suf.foldl polymodStep (polymodStep (mid.foldl polymodStep
        (polymodStep (pre.foldl polymodStep S) a1)) a2) ^^^
      stepZ^[suf.length] ((a2 ^^^ b2) ^^^ stepZ (stepZ^[mid.length] (a1 ^^^ b1)))
      = suf.foldl polymodStep (polymodStep (mid.foldl polymodStep
        (polymodStep (pre.foldl polymodStep S) a1)) a2) ^^^ 0 := by
    rw [Nat.xor_zero]
    exact hc.symm
  exact Nat.xor_right_inj.mp h2

/-! ## Lemmas: list surgery and parsing inversion -/

theorem getD_lt_eq (l : List Nat) (j : Nat) (hj : j < l.length) :
    l.getD j 0 = l[j] := by
  simp [List.getD_eq_getElem?_getD, List.getElem?_eq_getElem hj]

theorem getD_map_lt (l : List Nat) (f : Nat → Nat) (j : Nat) (hj : j < l.length) :
    (l.map f).getD j 0 = f (l.getD j 0) := by
  rw [getD_lt_eq _ j (by simpa using hj), getD_lt_eq l j hj]
  simp

theorem getD_mem_lt (l : List Nat) (j : Nat) (hj : j < l.length) : l.getD j 0 ∈ l := by
  rw [getD_lt_eq l j hj]
  exact List.getElem_mem hj

theorem eq_take_cons_drop (l : List Nat) (j : Nat) (hj : j < l.length) :
    l = l.take j ++ l.getD j 0 :: l.drop (j + 1) := by
  have h1 : l.drop j = l.getD j 0 :: l.drop (j + 1) := by
    rw [getD_lt_eq l j hj]
    exact List.drop_eq_getElem_cons hj
  calc l = l.take j ++ l.drop j := (List.take_append_drop j l).symm
    _ = l.take j ++ l.getD j 0 :: l.drop (j + 1) := by rw [h1]

theorem set_eq_take_cons_drop (l : List Nat) (j x : Nat) (hj : j < l.length) :
    l.set j x = l.take j ++ x :: l.drop (j + 1) := by
  have h := eq_take_cons_drop (l.set j x) j (by simpa using hj)
  rw [h, List.set_take]
  have htk : (l.take j).set j x = l.take j :=
    List.set_eq_of_length_le (by simp)
  rw [htk]
  congr 1
  congr 1
  · rw [getD_lt_eq _ j (by simpa using hj)]
    exact List.getElem_set_self (by simpa using hj)
  · rw [List.drop_set]
    rw [if_pos (by omega)]

theorem set_getD_eq_self (l : List Nat) (j : Nat) : l.set j (l.getD j 0) = l := by
  induction l generalizing j with
  | nil => simp
  | cons c rest ih =>
    cases j with
    | zero => simp
    | succ m =>
      simp only [List.set_cons_succ, List.getD_cons_succ]
      rw [ih m]

theorem toLowerChar_ne_49 (c : Nat) (h : c ≠ 49) : toLowerChar c ≠ 49 := by
  unfold toLowerChar isUpperChar
  split
  · next hc =>
    simp at hc
    omega
  · exact h

theorem eq_49_of_toLowerChar (c : Nat) (h : toLowerChar c = 49) : c = 49 := by
  unfold toLowerChar isUpperChar at h
  split at h
  · next hc =>
    simp at hc
    omega
  · exact h

theorem toLowerChar_le_126 (c : Nat) (h : c ≤ 126) : toLowerChar c ≤ 126 := by
  unfold toLowerChar isUpperChar
  split
  · next hc =>
    simp at hc
    omega
  · exact h

theorem char_eq_of_parts (c1 c2 : Nat) (_h1 : c1 ≤ 126) (_h2 : c2 ≤ 126)
    (hh : c1 >>> 5 = c2 >>> 5) (hl : c1 &&& 31 = c2 &&& 31) : c1 = c2 := by
  rw [Nat.shiftRight_eq_div_pow, Nat.shiftRight_eq_div_pow] at hh
  rw [and31_eq_mod, and31_eq_mod] at hl
  have h5 : (2 : Nat) ^ 5 = 32 := by norm_num
  rw [h5] at hh
  omega

theorem hi_lt_4 (c : Nat) (h : c ≤ 126) : c >>> 5 < 4 := by
  rw [Nat.shiftRight_eq_div_pow]
  have h5 : (2 : Nat) ^ 5 = 32 := by norm_num
  rw [h5]
  omega

theorem lastSepIdx_spec : ∀ l : List Nat, ∀ pos, lastSepIdx l = some pos →
    pos < l.length ∧ l.getD pos 0 = 49 := by
  intro l
  induction l with
  | nil =>
    intro pos h
    simp [lastSepIdx] at h
  | cons c rest ih =>
    intro pos h
    unfold lastSepIdx at h
    cases hr : lastSepIdx rest with
    | some k =>
      rw [hr] at h
      injection h with h2
      subst h2
      obtain ⟨hk, hg⟩ := ih k hr
      constructor
      · simp
        omega
      · simpa using hg
    | none =>
      rw [hr] at h
      by_cases hc : c = 49
      · rw [if_pos hc] at h
        injection h with h2
        subst h2
        exact ⟨by simp, by simpa using hc⟩
      · rw [if_neg hc] at h
        exact absurd h (by simp)

theorem lastSepIdx_set (l : List Nat) (j x : Nat) (h1 : l.getD j 0 ≠ 49) (h2 : x ≠ 49) :
    lastSepIdx (l.set j x) = lastSepIdx l := by
  induction l generalizing j with
  | nil => simp
  | cons c rest ih =>
    cases j with
    | zero =>
      show lastSepIdx (x :: rest) = lastSepIdx (c :: rest)
      unfold lastSepIdx
      cases hr : lastSepIdx rest with
      | some k => rfl
      | none =>
        have hc : c ≠ 49 := by simpa using h1
        simp [hc, h2]
    | succ m =>
      show lastSepIdx (c :: rest.set m x) = lastSepIdx (c :: rest)
      unfold lastSepIdx
      rw [ih m (by simpa using h1)]

theorem allCharsetIdx_set : ∀ l : List Nat, ∀ k x vs vs2, k < l.length →
    allCharsetIdx l = some vs → allCharsetIdx (l.set k x) = some vs2 →
    ∃ dx dk, charsetIdx x = some dx ∧ charsetIdx (l.getD k 0) = some dk ∧
      vs.getD k 0 = dk ∧ vs2 = vs.set k dx ∧ k < vs.length := by
  intro l
  induction l with
  | nil =>
    intro k x vs vs2 hk
    simp at hk
  | cons c rest ih =>
    intro k x vs vs2 hk hv hv2
    cases k with
    | zero =>
      rw [List.set_cons_zero] at hv2
      unfold allCharsetIdx at hv hv2
      cases hc : charsetIdx c with
      | none => rw [hc] at hv; exact absurd hv (by simp)
      | some dk0 =>
        rw [hc] at hv
        cases hr : allCharsetIdx rest with
        | none => rw [hr] at hv; exact absurd hv (by simp)
        | some ds =>
          rw [hr] at hv
          cases hx : charsetIdx x with
          | none => rw [hx, hr] at hv2; exact absurd hv2 (by simp)
          | some dx0 =>
            rw [hx, hr] at hv2
            injection hv with hv
            injection hv2 with hv2
            subst hv
            subst hv2
            exact ⟨dx0, dk0, rfl, by simpa using hc, by simp, by simp, by simp⟩
    | succ m =>
      rw [List.set_cons_succ] at hv2
      unfold allCharsetIdx at hv hv2
      cases hc : charsetIdx c with
      | none => rw [hc] at hv; exact absurd hv (by simp)
      | some d0 =>
        rw [hc] at hv hv2
        cases hr : allCharsetIdx rest with
        | none => rw [hr] at hv; exact absurd hv (by simp)
        | some ds =>
          rw [hr] at hv
          cases hr2 : allCharsetIdx (rest.set m x) with
          | none => rw [hr2] at hv2; exact absurd hv2 (by simp)
          | some ds2 =>
            rw [hr2] at hv2
            injection hv with hv
            injection hv2 with hv2
            subst hv
            subst hv2
            obtain ⟨dx, dk, p1, p2, p3, p4, p5⟩ := ih m x ds ds2 (by simpa using hk) hr hr2
            refine ⟨dx, dk, p1, by simpa using p2, by simpa using p3, ?_, by simp; omega⟩
            rw [List.set_cons_succ, p4]

theorem bech32Parse_ok_inv (str hh vals : List Nat)
    (h : bech32Parse str = Except.ok (hh, vals)) :
    (∀ c ∈ str, 33 ≤ c ∧ c ≤ 126) ∧
    ∃ pos, lastSepIdx (str.map toLowerChar) = some pos ∧
      1 ≤ pos ∧ pos ≤ 83 ∧ pos + 7 ≤ str.length ∧
      hh = (str.map toLowerChar).take pos ∧
      allCharsetIdx ((str.map toLowerChar).drop (pos + 1)) = some vals := by
  unfold bech32Parse at h
  by_cases h1 : (str.any fun c => decide (c < 33) || decide (126 < c)) = true
  · rw [if_pos h1] at h
    exact absurd h (by simp)
  · rw [if_neg h1] at h
    have hrange : ∀ c ∈ str, 33 ≤ c ∧ c ≤ 126 := by
      intro c hc
      have h1f : (str.any fun c => decide (c < 33) || decide (126 < c)) = false := by
        simpa using h1
      rw [List.any_eq_false] at h1f
      have := h1f c hc
      simp at this
      omega
    by_cases h2 : (str.any isUpperChar && str.any isLowerChar) = true
    · rw [if_pos h2] at h
      exact absurd h (by simp)
    · rw [if_neg h2] at h
      cases hsep : lastSepIdx (str.map toLowerChar) with
      | none =>
        rw [hsep] at h
        exact absurd h (by simp)
      | some pos =>
        rw [hsep] at h
        dsimp only at h
        by_cases h3 : pos < 1 ∨ 83 < pos
        · rw [if_pos h3] at h
          exact absurd h (by simp)
        · rw [if_neg h3] at h
          by_cases h4 : str.length < pos + 7
          · rw [if_pos h4] at h
            exact absurd h (by simp)
          · rw [if_neg h4] at h
            cases hac : allCharsetIdx ((str.map toLowerChar).drop (pos + 1)) with
            | none =>
              rw [hac] at h
              exact absurd h (by simp)
            | some vs =>
              rw [hac] at h
              simp only [Except.ok.injEq, Prod.mk.injEq] at h
              obtain ⟨hL, hR⟩ := h
              refine ⟨hrange, pos, rfl, by omega, by omega, by omega, hL.symm, ?_⟩
              rw [hac, hR]

theorem bech32Decode_ok_inv (str p : List Nat) (h : bech32Decode str = Except.ok p) :
    ∃ hh vals, bech32Parse str = Except.ok (hh, vals) ∧
      bech32Polymod (hrpExpand hh ++ vals) = 1 := by
  unfold bech32Decode at h
  cases hp : bech32Parse str with
  | error e =>
    rw [hp] at h
    exact absurd h (by simp)
  | ok q =>
    obtain ⟨hh, vals⟩ := q
    rw [hp] at h
    dsimp only at h
    by_cases hc : bech32Polymod (hrpExpand hh ++ vals) = 1
    · exact ⟨hh, vals, rfl, hc⟩
    · rw [if_neg hc] at h
      exact absurd h (by simp)

theorem getD_take_lt (l : List Nat) (n j : Nat) (hj : j < n) :
    (l.take n).getD j 0 = l.getD j 0 := by
  simp [List.getD_eq_getElem?_getD, List.getElem?_take_of_lt hj]

theorem getD_drop_add (l : List Nat) : ∀ n k, (l.drop n).getD k 0 = l.getD (n + k) 0 := by
  induction l with
  | nil =>
    intro n k
    simp
  | cons c rest ih =>
    intro n k
    cases n with
    | zero => simp
    | succ m =>
      show (rest.drop m).getD k 0 = (c :: rest).getD (m + 1 + k) 0
      have he : m + 1 + k = (m + k) + 1 := by omega
      rw [he, List.getD_cons_succ]
      exact ih m k

theorem reshape1 (H A B V : List Nat) (a : Nat) :
    (H ++ 0 :: (A ++ a :: B)) ++ V = (H ++ 0 :: A) ++ a :: (B ++ V) := by
  simp [List.append_assoc]

theorem reshape2 (P Q A B V : List Nat) (a1 a2 : Nat) :
    ((P ++ a1 :: Q) ++ 0 :: (A ++ a2 :: B)) ++ V
      = P ++ a1 :: ((Q ++ 0 :: A) ++ a2 :: (B ++ V)) := by
  simp [List.append_assoc]

theorem polymod_ne_one_single (P B : List Nat) (a b : Nat)
    (hpoly : (P ++ a :: B).foldl polymodStep 1 = 1)
    (hP : ∀ x ∈ P, x < 32) (hB : ∀ x ∈ B, x < 32)
    (ha : a < 32) (hb : b < 32) (hab : a ≠ b) :
    (P ++ b :: B).foldl polymodStep 1 ≠ 1 := by
  intro hcon
  have hdiff := foldl_single_diff P B a b 1 (by norm_num) hP ha hb hB hab
  rw [hpoly, hcon] at hdiff
  exact hdiff rfl

theorem polymod_ne_one_hrp (hh vals : List Nat) (j c2 : Nat)
    (hpoly : bech32Polymod (hrpExpand hh ++ vals) = 1)
    (hhle : ∀ x ∈ hh, x ≤ 126) (hc2 : c2 ≤ 126)
    (hv : ∀ v ∈ vals, v < 32)
    (hj : j < hh.length) (hlen1 : 1 ≤ hh.length) (hlen83 : hh.length ≤ 83)
    (hne : c2 ≠ hh.getD j 0) :
    bech32Polymod (hrpExpand (hh.set j c2) ++ vals) ≠ 1 := by
  have hexp2 : hrpExpand (hh.set j c2)
      = (hh.map (fun x => x >>> 5)).set j (c2 >>> 5)
        ++ 0 :: (hh.map (fun x => x &&& 31)).set j (c2 &&& 31) := by
    simp [hrpExpand, List.map_set]
  have hHB : ∀ x ∈ hh.map (fun x => x >>> 5), x < 32 := by
    intro x hx
    obtain ⟨y, hy, he⟩ := List.mem_map.mp hx
    rw [← he]
    have := hi_lt_4 y (hhle y hy)
    omega
  have hLB : ∀ x ∈ hh.map (fun x => x &&& 31), x < 32 := by
    intro x hx
    obtain ⟨y, hy, he⟩ := List.mem_map.mp hx
    rw [← he]
    exact and31_lt y
  have hHj : j < (hh.map (fun x => x >>> 5)).length := by simpa using hj
  have hLj : j < (hh.map (fun x => x &&& 31)).length := by simpa using hj
  have hHgd : (hh.map (fun x => x >>> 5)).getD j 0 = hh.getD j 0 >>> 5 :=
    getD_map_lt hh _ j hj
  have hLgd : (hh.map (fun x => x &&& 31)).getD j 0 = hh.getD j 0 &&& 31 :=
    getD_map_lt hh _ j hj
  have hgdle : hh.getD j 0 ≤ 126 := hhle _ (getD_mem_lt hh j hj)
  by_cases hhi : c2 >>> 5 = hh.getD j 0 >>> 5
  · have hlo : hh.getD j 0 &&& 31 ≠ c2 &&& 31 := by
      intro hcon
      exact hne (char_eq_of_parts c2 (hh.getD j 0) hc2 hgdle hhi hcon.symm)
    have hHset : (hh.map (fun x => x >>> 5)).set j (c2 >>> 5) = hh.map (fun x => x >>> 5) := by
      rw [hhi, ← hHgd]
      exact set_getD_eq_self _ j
    intro hcon
    rw [hexp2, hHset] at hcon
    rw [set_eq_take_cons_drop _ j _ hLj] at hcon
    rw [show hrpExpand hh = hh.map (fun x => x >>> 5) ++ 0 :: hh.map (fun x => x &&& 31)
      from rfl] at hpoly
    rw [eq_take_cons_drop (hh.map (fun x => x &&& 31)) j hLj, hLgd] at hpoly
    unfold bech32Polymod at hpoly hcon
    rw [reshape1] at hpoly hcon
    refine polymod_ne_one_single (hh.map (fun x => x >>> 5) ++ 0 :: (hh.map (fun x => x &&& 31)).take j)
      _ (hh.getD j 0 &&& 31) (c2 &&& 31) hpoly ?_ ?_
      (and31_lt _) (and31_lt _) hlo hcon
    · intro x hx
      rcases List.mem_append.mp hx with h | h
      · exact hHB x h
      · rcases List.mem_cons.mp h with h2 | h2
        · omega
        · exact hLB x (List.mem_of_mem_take h2)
    · intro x hx
      rcases List.mem_append.mp hx with h | h
      · exact hLB x (List.drop_subset _ _ h)
      · exact hv x h
  · intro hcon
    rw [hexp2] at hcon
    rw [set_eq_take_cons_drop _ j _ hHj, set_eq_take_cons_drop _ j _ hLj] at hcon
    rw [show hrpExpand hh = hh.map (fun x => x >>> 5) ++ 0 :: hh.map (fun x => x &&& 31)
      from rfl] at hpoly
    rw [eq_take_cons_drop (hh.map (fun x => x >>> 5)) j hHj, hHgd] at hpoly
    rw [eq_take_cons_drop (hh.map (fun x => x &&& 31)) j hLj, hLgd] at hpoly
    unfold bech32Polymod at hpoly hcon
    rw [reshape2] at hpoly hcon
    have hdiff := foldl_two_diff ((hh.map (fun x => x >>> 5)).take j)
      (((hh.map (fun x => x >>> 5)).drop (j + 1)) ++ 0 :: ((hh.map (fun x => x &&& 31)).take j))
      (((hh.map (fun x => x &&& 31)).drop (j + 1)) ++ vals)
      (hh.getD j 0 >>> 5) (c2 >>> 5) (hh.getD j 0 &&& 31) (c2 &&& 31) 1
      (by norm_num)
      (fun x hx => hHB x (List.mem_of_mem_take hx))
      ?_ ?_
      (hi_lt_4 _ hgdle) (hi_lt_4 c2 hc2) (and31_lt _) (and31_lt _)
      (fun hcon2 => hhi hcon2.symm) ?_ ?_
    · rw [hpoly, hcon] at hdiff
      exact hdiff rfl
    · intro x hx
      rcases List.mem_append.mp hx with h | h
      · exact hHB x (List.drop_subset _ _ h)
      · rcases List.mem_cons.mp h with h2 | h2
        · omega
        · exact hLB x (List.mem_of_mem_take h2)
    · intro x hx
      rcases List.mem_append.mp hx with h | h
      · exact hLB x (List.drop_subset _ _ h)
      · exact hv x h
    · simp
      omega
    · simp
      omega

/-- C5 (amended): changing a single character of a valid Bech32 string
(the flip neither touching the separator position nor being a mere case
change) makes decoding fail with ChecksumMismatch whenever the flipped
string still passes the pre-checksum parsing stage; flips that break the
character checks surface that parse error instead, case-mixed inputs
fail with InvalidCharacter, and inputs with characters outside the
visible range fail with InvalidCharacter. -/
theorem claim5_flip_amended (str payload : List Nat) (j c : Nat)
    (hok : bech32Decode str = Except.ok payload)
    (hj : j < str.length)
    (hne : toLowerChar c ≠ toLowerChar (str.getD j 0))
    (h49a : str.getD j 0 ≠ 49) (h49b : c ≠ 49) :
    (∀ hh2 vals2, bech32Parse (str.set j c) = Except.ok (hh2, vals2) →
      bech32Decode (str.set j c) = Except.error Bech32Err.ChecksumMismatch) ∧
    (∀ e, bech32Parse (str.set j c) = Except.error e →
      bech32Decode (str.set j c) = Except.error e) ∧
    (∀ s2 : List Nat, s2.any isUpperChar = true → s2.any isLowerChar = true →
      bech32Decode s2 = Except.error Bech32Err.InvalidCharacter) ∧
    (∀ s2 : List Nat, (∃ c2 ∈ s2, c2 < 33 ∨ 126 < c2) →
      bech32Decode s2 = Except.error Bech32Err.InvalidCharacter) := by
  refine ⟨?_, ?_, ?_, ?_⟩
  · intro hh2 vals2 hp2
    obtain ⟨hh, vals, hp, hpoly⟩ := bech32Decode_ok_inv str payload hok
    obtain ⟨hrange, pos, hsep, hpos1, hpos83, hlen7, hhh, hvals⟩ :=
      bech32Parse_ok_inv str hh vals hp
    obtain ⟨hrange2, pos2, hsep2, hpos1b, hpos83b, hlen7b, hhh2, hvals2⟩ :=
      bech32Parse_ok_inv (str.set j c) hh2 vals2 hp2
    have hmapset : (str.set j c).map toLowerChar
        = (str.map toLowerChar).set j (toLowerChar c) := by
      simp [List.map_set]
    have htj : (str.map toLowerChar).getD j 0 = toLowerChar (str.getD j 0) :=
      getD_map_lt str toLowerChar j hj
    have hsep2e : lastSepIdx ((str.map toLowerChar).set j (toLowerChar c))
        = lastSepIdx (str.map toLowerChar) :=
      lastSepIdx_set _ j _ (by rw [htj]; exact fun hcon => h49a (eq_49_of_toLowerChar _ hcon))
        (fun hcon => h49b (eq_49_of_toLowerChar c hcon))
    have hposeq : pos = pos2 := by
      rw [hmapset, hsep2e, hsep] at hsep2
      exact Option.some.inj hsep2
    subst hposeq
    obtain ⟨hposlt, hpos49⟩ := lastSepIdx_spec _ pos hsep
    have hjne : j ≠ pos := by
      intro hcon
      subst hcon
      rw [htj] at hpos49
      exact h49a (eq_49_of_toLowerChar _ hpos49)
    have htle : ∀ x ∈ str.map toLowerChar, x ≤ 126 := by
      intro x hx
      obtain ⟨y, hy, he⟩ := List.mem_map.mp hx
      rw [← he]
      exact toLowerChar_le_126 y (hrange y hy).2
    have hhhle : ∀ x ∈ hh, x ≤ 126 := by
      intro x hx
      rw [hhh] at hx
      exact htle x (List.mem_of_mem_take hx)
    have hposlen : pos ≤ (str.map toLowerChar).length := by
      simp at hposlt ⊢
      omega
    have hhhlen : hh.length = pos := by
      rw [hhh]
      simp
      omega
    have hvlt : ∀ v ∈ vals, v < 32 := allCharsetIdx_lt _ vals hvals
    have hcle : c ≤ 126 := by
      have hgd : (str.set j c).getD j 0 = c := by
        rw [getD_lt_eq _ j (by simpa using hj)]
        exact List.getElem_set_self (by simpa using hj)
      have hcin : c ∈ str.set j c := by
        have hmem := getD_mem_lt (str.set j c) j (by simpa using hj)
        rw [hgd] at hmem
        exact hmem
      exact (hrange2 c hcin).2
    rw [bech32Decode_of_parse _ _ _ hp2]
    rcases Nat.lt_or_ge j pos with hjlt | hjge
    · have hvals2e : vals2 = vals := by
        rw [hmapset, List.drop_set, if_pos (by omega), hvals] at hvals2
        exact (Option.some.inj hvals2).symm
      have hh2e : hh2 = hh.set j (toLowerChar c) := by
        rw [hhh2, hmapset, List.set_take, ← hhh]
      have hhgd : hh.getD j 0 = toLowerChar (str.getD j 0) := by
        rw [hhh, getD_take_lt _ pos j hjlt, htj]
      have hX : ¬ bech32Polymod (hrpExpand hh2 ++ vals2) = 1 := by
        rw [hvals2e, hh2e]
        exact polymod_ne_one_hrp hh vals j (toLowerChar c) hpoly hhhle
          (toLowerChar_le_126 c hcle) hvlt (by omega) (by omega) (by omega)
          (by rw [hhgd]; exact hne)
      rw [if_neg hX]
    · have hh2e : hh2 = hh := by
        rw [hhh2, hmapset, List.set_take,
          List.set_eq_of_length_le (by simp; omega), ← hhh]
      have hdropset : ((str.map toLowerChar).set j (toLowerChar c)).drop (pos + 1)
          = ((str.map toLowerChar).drop (pos + 1)).set (j - (pos + 1)) (toLowerChar c) := by
        rw [List.drop_set, if_neg (by omega)]
      have hklen : j - (pos + 1) < ((str.map toLowerChar).drop (pos + 1)).length := by
        simp
        omega
      have hvals2e : allCharsetIdx (((str.map toLowerChar).drop (pos + 1)).set
          (j - (pos + 1)) (toLowerChar c)) = some vals2 := by
        rw [← hdropset, ← hmapset]
        exact hvals2
      obtain ⟨dx, dk, hdx, hdk, hgd, hset, hkv⟩ :=
        allCharsetIdx_set _ (j - (pos + 1)) (toLowerChar c) vals vals2 hklen hvals hvals2e
      have holdc : ((str.map toLowerChar).drop (pos + 1)).getD (j - (pos + 1)) 0
          = toLowerChar (str.getD j 0) := by
        rw [getD_drop_add _ (pos + 1) (j - (pos + 1)),
          show pos + 1 + (j - (pos + 1)) = j from by omega, htj]
      have hdkdx : dx ≠ dk := by
        intro hcon
        subst hcon
        have h1 := (charsetIdx_some _ _ hdx).2
        have h2 := (charsetIdx_some _ _ hdk).2
        rw [h1, holdc] at h2
        exact hne h2
      have hX : ¬ bech32Polymod (hrpExpand hh2 ++ vals2) = 1 := by
        rw [hh2e, hset]
        intro hcon
        unfold bech32Polymod at hpoly hcon
        rw [eq_take_cons_drop vals (j - (pos + 1)) hkv, hgd] at hpoly
        rw [set_eq_take_cons_drop vals (j - (pos + 1)) dx hkv] at hcon
        rw [← List.append_assoc] at hpoly hcon
        refine polymod_ne_one_single (hrpExpand hh ++ vals.take (j - (pos + 1)))
          (vals.drop (j - (pos + 1) + 1)) dk dx hpoly ?_ ?_
          ((charsetIdx_some _ _ hdk).1) ((charsetIdx_some _ _ hdx).1)
          (fun hcc => hdkdx hcc.symm) hcon
        · intro x hx
          rcases List.mem_append.mp hx with h | h
          · exact hrpExpand_lt hh hhhle x h
          · exact hvlt x (List.mem_of_mem_take h)
        · intro x hx
          exact hvlt x (List.drop_subset _ _ hx)
      rw [if_neg hX]
  · intro e he
    exact bech32Decode_of_parse_error _ e he
  · intro s2 hu hl2
    apply bech32Decode_of_parse_error
    unfold bech32Parse
    by_cases h1 : (s2.any fun c => decide (c < 33) || decide (126 < c)) = true
    · rw [if_pos h1]
    · rw [if_neg h1, if_pos (by rw [hu, hl2]; rfl)]
  · intro s2 hbad
    apply bech32Decode_of_parse_error
    unfold bech32Parse
    obtain ⟨c2, hc2, hc2bad⟩ := hbad
    rw [if_pos (List.any_eq_true.mpr ⟨c2, hc2, by simp; omega⟩)]

/-- C5 counterexample: the valid Bech32 string a1qqqsy0jtw7z decodes
successfully, yet flipping its single character at index 3 to b (a
character outside the Bech32 alphabet) makes decoding fail with
InvalidCharacter rather than the ChecksumMismatch the claim requires for
every single-character change. -/
theorem claim5_counterexample :
    bech32Decode [97, 49, 113, 113, 113, 115, 121, 48, 106, 116, 119, 55, 122]
      = Except.ok [0, 1, 2] ∧
    bech32Decode ([97, 49, 113, 113, 113, 115, 121, 48, 106, 116, 119, 55, 122].set 3 98)
      = Except.error Bech32Err.InvalidCharacter ∧
    bech32Decode ([97, 49, 113, 113, 113, 115, 121, 48, 106, 116, 119, 55, 122].set 3 98)
      ≠ Except.error Bech32Err.ChecksumMismatch := by
  refine ⟨by decide, by decide, by decide⟩

/-- Witness for the amended C5 theorem: flipping character 3 of the valid
string a1qqqsy0jtw7z to p (a valid alphabet character that is not a case
variant of q) yields a string that still parses, and decoding it fails
with ChecksumMismatch. -/
theorem claim5_flip_amended_witness :
    bech32Decode ([97, 49, 113, 113, 113, 115, 121, 48, 106, 116, 119, 55, 122].set 3 112)
      = Except.error Bech32Err.ChecksumMismatch := by
  have h := claim5_flip_amended
    [97, 49, 113, 113, 113, 115, 121, 48, 106, 116, 119, 55, 122]
    [0, 1, 2] 3 112 (by decide) (by decide) (by decide) (by decide) (by decide)
  exact h.1 [97] [0, 1, 0, 16, 4, 15, 18, 11, 14, 30, 2] (by decide)
